import Mathlib

/-!
# EcoDocs pipeline — verification of the frozen specification claims

Shallow embedding of the Python scripts under `.github/workflows/` of the
EcoDocs repository:

* `update_state.py`, `check_failed_files.py`, `load_state.py` — the
  conversion state tracker (claims C1, C2, C3, C8, C9);
* `generate_registry.py` — the registry builder (claims C4, C6, C7);
* `create_metadata.py` — the frontmatter composer (claims C5, C10).

Python dictionaries are modelled as insertion-ordered association lists,
Python strings as Lean `String`/`List Char`, and the regular expressions of
the source as explicit character-list scanners following the (deterministic)
backtracking behaviour of the concrete patterns.  Fallible code (the
`attemptCount += 1` `KeyError` path of `update_state.py`) returns `Option`.
-/

namespace EcoDocs

/-! ## Python dictionary primitives

Insertion-ordered association lists mirroring `dict` semantics:
lookup finds the first binding, assignment to an existing key replaces the
value in place, assignment to a fresh key appends, `del` removes the
binding. -/

abbrev Dict (α : Type) := List (String × α)

def dictGet {α : Type} (k : String) (d : Dict α) : Option α :=
  match d with
  | [] => none
  | (k', v) :: rest => if k' = k then some v else dictGet k rest

def dictSet {α : Type} (k : String) (v : α) (d : Dict α) : Dict α :=
  match d with
  | [] => [(k, v)]
  | (k', v') :: rest => if k' = k then (k, v) :: rest else (k', v') :: dictSet k v rest

def dictErase {α : Type} (k : String) (d : Dict α) : Dict α :=
  d.filter (fun e => e.1 ≠ k)

/-- The keys of a dictionary, in insertion order. -/
def dictKeys {α : Type} (d : Dict α) : List String := d.map Prod.fst

/-- A well-formed Python dictionary binds each key at most once. -/
def keysNodup {α : Type} (d : Dict α) : Prop := (dictKeys d).Nodup

instance keysNodupDecidable {α : Type} [DecidableEq α] (d : Dict α) :
    Decidable (keysNodup d) :=
  inferInstanceAs (Decidable (dictKeys d).Nodup)

/-! ## Environment-variable splitting

`os.environ.get(VAR, '').split()` splits on runs of whitespace and produces
no empty tokens; the subsequent `f.strip()` is then the identity and the
`if f.strip()` filter drops nothing. -/

def isPySpace (c : Char) : Bool :=
  c = ' ' ∨ c = '\t' ∨ c = '\n' ∨ c = '\r' ∨ c = '\x0b' ∨ c = '\x0c'

def splitWsAux : List Char → List Char → List String
  | [], acc => if acc = [] then [] else [⟨acc.reverse⟩]
  | c :: rest, acc =>
    if isPySpace c then
      if acc = [] then splitWsAux rest [] else ⟨acc.reverse⟩ :: splitWsAux rest []
    else splitWsAux rest (c :: acc)

/-- Python `str.split()` with no argument: split on whitespace runs. -/
def envSplit (s : String) : List String := splitWsAux s.data []

/-! ## Conversion state (`update_state.py`)

The JSON state file.  A loaded state may lack any of the top-level keys, so
every field is optional; a record inside `failedFiles` may likewise lack
fields (`d.get('attemptCount', 0)` treats a missing count as 0, while
`state['failedFiles'][file_path]['attemptCount'] += 1` raises on a record
without the key — modelled by `Option` results). -/

structure FRec where
  attemptCount : Option Int
  lastAttempt : Option String
  lastError : Option String
  sourceCommit : Option String
  deriving DecidableEq, Repr

structure SRec where
  convertedAt : String
  sourceCommit : String
  sourceHash : String
  deriving DecidableEq, Repr

structure PyState where
  failedFiles : Option (Dict FRec)
  successfulFiles : Option (Dict SRec)
  lastProcessedCommit : Option String
  lastSuccessfulRun : Option String
  deriving DecidableEq, Repr

/-- The `state = {}` substituted when the state file is missing or corrupt. -/
def emptyPyState : PyState := ⟨none, none, none, none⟩

/-- The state written by `update_state.py`: every top-level key is present. -/
structure NewState where
  failedFiles : Dict FRec
  successfulFiles : Dict SRec
  lastProcessedCommit : String
  lastSuccessfulRun : String
  deriving DecidableEq, Repr

def NewState.toPyState (s : NewState) : PyState :=
  ⟨some s.failedFiles, some s.successfulFiles, some s.lastProcessedCommit,
    some s.lastSuccessfulRun⟩

/-- One step of the `for file_path in processed_files` loop acting on
`state['failedFiles']`: delete the residual failure record of a file that
succeeded (`if file_path and file_path not in failed_files`). -/
def processedEraseStep (failed : List String) (d : Dict FRec) (p : String) : Dict FRec :=
  if p ≠ "" ∧ p ∉ failed then dictErase p d else d

/-- One step of the processed loop acting on
`successful_files_current_session`. -/
def processedSuccStep (failed : List String) (t c : String) (m : Dict SRec) (p : String) :
    Dict SRec :=
  if p ≠ "" ∧ p ∉ failed then dictSet p ⟨t, c, "sha256-placeholder"⟩ m else m

/-- One step of the `for file_path in failed_files` loop: increment the
attempt counter (a record without `attemptCount` raises `KeyError`, hence
`none`) or initialize it to 1, then overwrite `lastAttempt`, `lastError`
and `sourceCommit`. -/
def failedStep (t c : String) (d : Dict FRec) (p : String) : Option (Dict FRec) :=
  if p = "" then some d
  else
    match dictGet p d with
    | some r =>
      match r.attemptCount with
      | some n =>
        some (dictSet p ⟨some (n + 1), some t, some "conversion failed", some c⟩ d)
      | none => none
    | none => some (dictSet p ⟨some 1, some t, some "conversion failed", some c⟩ d)

def failedLoop (t c : String) (failed : List String) (d : Dict FRec) : Option (Dict FRec) :=
  failed.foldlM (failedStep t c) d

/-- The whole of `update_state.py` after environment parsing: given the
loaded prior state, the current commit (`GITHUB_SHA`), the current time and
the two file lists, produce the state written to `new-state.json` (or
`none` when the script would die with a `KeyError`). -/
def updateState (s : PyState) (t c : String) (processed failed : List String) :
    Option NewState :=
  let d0 := s.failedFiles.getD []
  let d1 := processed.foldl (processedEraseStep failed) d0
  let succ := processed.foldl (processedSuccStep failed t c) []
  (failedLoop t c failed d1).map fun d2 => ⟨d2, succ, c, t⟩

/-- `update_state.py` as run: file lists come from the whitespace-separated
`PROCESSED_FILES` and `FAILED_FILES` environment variables. -/
def updateStateEnv (s : PyState) (t c : String) (procEnv failEnv : String) :
    Option NewState :=
  updateState s t c (envSplit procEnv) (envSplit failEnv)

/-- `try: state = json.load(...) except: state = {}` — the loaded state when
the parse outcome is `none` (file missing, unreadable or malformed JSON). -/
def loadStateOrEmpty (o : Option PyState) : PyState := o.getD emptyPyState

/-- `update_state.py` from the raw read outcome of `current-state.json`. -/
def updateStateScript (o : Option PyState) (t c : String) (procEnv failEnv : String) :
    Option NewState :=
  updateStateEnv (loadStateOrEmpty o) t c procEnv failEnv

/-! ## Retry query (`check_failed_files.py`) and `load_state.py` -/

/-- `[f for f, d in failed.items() if d.get('attemptCount', 0) < 3]`. -/
def retryNames (d : Dict FRec) : List String :=
  (d.filter fun e => e.2.attemptCount.getD 0 < 3).map Prod.fst

/-- The retry-candidate list computed from a loaded state
(`failed = state.get('failedFiles', {})`). -/
def retryFilesOf (s : PyState) : List String :=
  retryNames (s.failedFiles.getD [])

def joinSpace : List String → String
  | [] => ""
  | [x] => x
  | x :: xs => x ++ " " ++ joinSpace xs

/-- What `check_failed_files.py` prints: the space-joined retry candidates,
or the empty string when reading or parsing the state file failed. -/
def checkFailedFilesOutput (o : Option PyState) : String :=
  match o with
  | none => ""
  | some s => joinSpace (retryFilesOf s)

/-- What `load_state.py` prints: `state.get('lastProcessedCommit', '')`, or
the empty string when reading or parsing the state file failed. -/
def loadStateOutput (o : Option PyState) : String :=
  match o with
  | none => ""
  | some s => s.lastProcessedCommit.getD ""

/-! ## Registry builder (`generate_registry.py`)

The regular expressions of the script are embedded as character-list
scanners.  Each concrete pattern is deterministic: runs such as `[^>]*`
followed by a character that the run cannot contain admit exactly one
viable match at a given start position, so `re.search` is faithfully
modelled by trying each start position left to right. -/

def isUpperAZ (c : Char) : Bool := 'A' ≤ c ∧ c ≤ 'Z'

def isDigit09 (c : Char) : Bool := '0' ≤ c ∧ c ≤ '9'

structure UspdParts where
  l1 : Char
  l2 : Char
  d1 : Char
  d2 : Char
  d3 : Char
  d4 : Char
  d5 : Char
  e1 : Char
  e2 : Char
  deriving DecidableEq, Repr

def uspdCond (p : UspdParts) : Bool :=
  isUpperAZ p.l1 && isUpperAZ p.l2 && isDigit09 p.d1 && isDigit09 p.d2 && isDigit09 p.d3 &&
    isDigit09 p.d4 && isDigit09 p.d5 && isDigit09 p.e1 && isDigit09 p.e2

/-- Anchored match of `([A-Z]{2})\.ECO\.(\d{5})-(\d{2})`: the captured
characters and the remaining input. -/
def matchUspd : List Char → Option (UspdParts × List Char)
  | c1 :: c2 :: '.' :: 'E' :: 'C' :: 'O' :: '.' :: d1 :: d2 :: d3 :: d4 :: d5 ::
      '-' :: e1 :: e2 :: rest =>
    if uspdCond ⟨c1, c2, d1, d2, d3, d4, d5, e1, e2⟩ then
      some (⟨c1, c2, d1, d2, d3, d4, d5, e1, e2⟩, rest)
    else none
  | _ => none

def uspdString (p : UspdParts) : String :=
  ⟨[p.l1, p.l2, '.', 'E', 'C', 'O', '.', p.d1, p.d2, p.d3, p.d4, p.d5, '-', p.e1, p.e2]⟩

def digitVal (c : Char) : Nat := c.toNat - '0'.toNat

def num5 (p : UspdParts) : Nat :=
  digitVal p.d1 * 10000 + digitVal p.d2 * 1000 + digitVal p.d3 * 100 +
    digitVal p.d4 * 10 + digitVal p.d5

def num2 (p : UspdParts) : Nat := digitVal p.e1 * 10 + digitVal p.e2

/-- `sort_uspd_key`: total on all identifier strings; a match of the USPD
pattern yields `(locale, int, int)`, anything else the fallback
`(uspd, 0, 0)`. -/
def sort_uspd_key (uspd : String) : String × Nat × Nat :=
  match matchUspd uspd.data with
  | some (p, _) => (⟨[p.l1, p.l2]⟩, num5 p, num2 p)
  | none => (uspd, 0, 0)

/-- Python string comparison: lexicographic on code points. -/
def pyListLt : List Char → List Char → Bool
  | [], [] => false
  | [], _ :: _ => true
  | _ :: _, [] => false
  | a :: as, b :: bs =>
    if a.toNat < b.toNat then true
    else if b.toNat < a.toNat then false
    else pyListLt as bs

/-- Python tuple comparison on sort keys `(str, int, int)`. -/
def keyLt (x y : String × Nat × Nat) : Bool :=
  if pyListLt x.1.data y.1.data then true
  else if pyListLt y.1.data x.1.data then false
  else if x.2.1 < y.2.1 then true
  else if y.2.1 < x.2.1 then false
  else decide (x.2.2 < y.2.2)

/-- Extracted registry row: identifier, name, CID, description. -/
structure RegEntry where
  uspd : String
  name : String
  cid : String
  description : String
  deriving DecidableEq, Repr

def entryKey (e : RegEntry) : String × Nat × Nat := sort_uspd_key e.uspd

/-- `entries.sort(key=lambda x: sort_uspd_key(x['uspd']))`: a stable sort
placing `a` before `b` whenever `key b < key a` fails. -/
def sortEntries (l : List RegEntry) : List RegEntry :=
  List.insertionSort (fun a b => keyLt (entryKey b) (entryKey a) = false) l

/-- `re.match(r'([A-Z]{2}\.ECO\.\d{5}-\d{2})_\d+', filename)`. -/
def extract_uspd_from_filename (filename : String) : Option String :=
  match matchUspd filename.data with
  | some (p, rest) =>
    match rest with
    | '_' :: d :: _ => if isDigit09 d then some (uspdString p) else none
    | _ => none
  | none => none

/-- Try a matcher at every start position, left to right (`re.search`). -/
def scanPos {α : Type} (m : List Char → Option α) : List Char → Option α
  | [] => m []
  | c :: rest =>
    match m (c :: rest) with
    | some v => some v
    | none => scanPos m rest

/-- Match a literal, returning the rest of the input. -/
def litPrefix : List Char → List Char → Option (List Char)
  | [], l => some l
  | _ :: _, [] => none
  | p :: ps, c :: cs => if c = p then litPrefix ps cs else none

def asciiLower (c : Char) : Char :=
  if 65 ≤ c.toNat ∧ c.toNat ≤ 90 then Char.ofNat (c.toNat + 32) else c

def asciiUpper (c : Char) : Char :=
  if 97 ≤ c.toNat ∧ c.toNat ≤ 122 then Char.ofNat (c.toNat - 32) else c

def pyUpper (s : String) : String := ⟨s.data.map asciiUpper⟩

/-- Case-insensitive literal match (ASCII folding, for `re.IGNORECASE`). -/
def litPrefixCI : List Char → List Char → Option (List Char)
  | [], l => some l
  | _ :: _, [] => none
  | p :: ps, c :: cs => if asciiLower c = asciiLower p then litPrefixCI ps cs else none

/-- `[^>]*>`: skip the maximal run without `>` and consume the `>`. -/
def skipToGt (l : List Char) : Option (List Char) :=
  match l.dropWhile (fun c => c ≠ '>') with
  | [] => none
  | _ :: r => some r

/-- Python `str.strip()`. -/
def pyStrip (l : List Char) : List Char :=
  ((l.dropWhile isPySpace).reverse.dropWhile isPySpace).reverse

/-- `\s*([^<]+)` followed by a literal starting with `<`: the capture and
the rest.  The greedy `\s*` is tried first; when the remainder starts with
`<` (or is empty) the engine backtracks one whitespace character into the
capture, and with no whitespace the position fails. -/
def capValLt (r : List Char) : Option (List Char × List Char) :=
  let w := r.takeWhile isPySpace
  let t := r.dropWhile isPySpace
  match t with
  | [] =>
    match w.getLast? with
    | some c => some ([c], [])
    | none => none
  | '<' :: _ =>
    match w.getLast? with
    | some c => some ([c], t)
    | none => none
  | _ :: _ => some (t.takeWhile (fun c => c ≠ '<'), t.dropWhile (fun c => c ≠ '<'))

/-- `USPD:</text:span><text:span[^>]*>\s*([A-Z]{2}\.ECO\.\d{5}-\d{2})`
tried at one position. -/
def uspdBodyAt (l : List Char) : Option String :=
  (litPrefix "USPD:</text:span><text:span".data l).bind fun r1 =>
  (skipToGt r1).bind fun r2 =>
  (matchUspd (r2.dropWhile isPySpace)).map fun pr => uspdString pr.1

/-- `>Name</text:span><text:span[^>]*>:</text:span><text:span[^>]*>\s*([^<]+)</text:span>`
tried at one position; the capture is then stripped. -/
def nameAt (l : List Char) : Option String :=
  (litPrefix ">Name</text:span><text:span".data l).bind fun r1 =>
  (skipToGt r1).bind fun r2 =>
  (litPrefix ":</text:span><text:span".data r2).bind fun r3 =>
  (skipToGt r3).bind fun r4 =>
  (capValLt r4).bind fun cr =>
  (litPrefix "</text:span>".data cr.2).map fun _ => (⟨pyStrip cr.1⟩ : String)

def isHexCID (c : Char) : Bool :=
  ('0' ≤ c ∧ c ≤ '9') ∨ ('A' ≤ c ∧ c ≤ 'F') ∨ ('a' ≤ c ∧ c ≤ 'f')

/-- `([A-F0-9]{32})` under `re.IGNORECASE`. -/
def take32Hex (l : List Char) : Option (List Char) :=
  let h := l.take 32
  if h.length = 32 ∧ h.all isHexCID then some h else none

/-- `>CID</text:span><text:span[^>]*>:</text:span><text:span[^>]*>\s*([A-F0-9]{32})`
with `re.IGNORECASE`, tried at one position. -/
def cidAt (l : List Char) : Option String :=
  (litPrefixCI ">CID</text:span><text:span".data l).bind fun r1 =>
  (skipToGt r1).bind fun r2 =>
  (litPrefixCI ":</text:span><text:span".data r2).bind fun r3 =>
  (skipToGt r3).bind fun r4 =>
  (take32Hex (r4.dropWhile isPySpace)).map fun h => (⟨h⟩ : String)

/-- `Short Description[^<]*</text:span>\s*<text:span[^>]*>\s*([^<]+)</text:span>`
tried at one position; the capture is then stripped. -/
def descAt (l : List Char) : Option String :=
  (litPrefix "Short Description".data l).bind fun r1 =>
  (litPrefix "</text:span>".data (r1.dropWhile (fun c => c ≠ '<'))).bind fun r2 =>
  (litPrefix "<text:span".data (r2.dropWhile isPySpace)).bind fun r3 =>
  (skipToGt r3).bind fun r4 =>
  (capValLt r4).bind fun cr =>
  (litPrefix "</text:span>".data cr.2).map fun _ => (⟨pyStrip cr.1⟩ : String)

/-- `extract_metadata_from_fodt` on a readable file: the first 10000
characters of the content are scanned for the four fields; when no body
USPD is found the filename (the base name of the path, as produced by
`os.walk`) is parsed instead.  The extracted CID is upper-cased. -/
def extract_metadata_from_fodt (filename content : String) :
    Option String × Option String × Option String × Option String :=
  let text := content.data.take 10000
  let uspd0 := scanPos uspdBodyAt text
  let name := scanPos nameAt text
  let cid := (scanPos cidAt text).map pyUpper
  let desc := scanPos descAt text
  let uspd := match uspd0 with
    | some u => some u
    | none => extract_uspd_from_filename filename
  (uspd, name, cid, desc)

/-- `x or 'N/A'`: Python falsy fallback. -/
def defaultNA (o : Option String) : String :=
  match o with
  | some s => if s = "" then "N/A" else s
  | none => "N/A"

/-- The entry appended for one scanned `.fodt` file (`if uspd:`). -/
def mkRegEntry (filename content : String) : Option RegEntry :=
  let m := extract_metadata_from_fodt filename content
  match m.1 with
  | some u =>
    if u = "" then none
    else some ⟨u, defaultNA m.2.1, defaultNA m.2.2.1, defaultNA m.2.2.2⟩
  | none => none

/-- The entry list accumulated over the walked `.fodt` files, in walk
order. -/
def registryEntries (files : List (String × String)) : List RegEntry :=
  files.filterMap fun fc => mkRegEntry fc.1 fc.2

def registryHeaderLines : List String :=
  ["# ECOOS DOCUMENTS REGISTRY", "",
   "## Format USPD number : Product\x27s Name : Component\x27s CID : Short description", ""]

def entryLine (e : RegEntry) : String :=
  e.uspd ++ " : " ++ e.name ++ " : " ++ e.cid ++ " : " ++ e.description

/-- `'\n'.join(lines)`. -/
def joinNl : List String → String
  | [] => ""
  | [x] => x
  | x :: xs => x ++ "\n" ++ joinNl xs

def splitNlAux : List Char → List Char → List String
  | [], acc => [⟨acc.reverse⟩]
  | c :: r, acc => if c = '\n' then ⟨acc.reverse⟩ :: splitNlAux r [] else splitNlAux r (c :: acc)

/-- The lines of a text, splitting on LF. -/
def linesOf (s : String) : List String := splitNlAux s.data []

/-- `'\n'.join` at the character level. -/
def charJoin : List (List Char) → List Char
  | [] => []
  | [x] => x
  | x :: xs => x ++ '\n' :: charJoin xs

/-- `generate_registry`: the text written to `USPD_REGISTRY.md` given the
walked `.fodt` files (base name and content, in walk order). -/
def generate_registry (files : List (String × String)) : String :=
  joinNl (registryHeaderLines ++ (sortEntries (registryEntries files)).map entryLine) ++ "\n"

/-! ## Frontmatter composer (`create_metadata.py`)

The content transformation of `create_meta` (the file rename driven by
CID and `source_dir_type` only picks the output path and is not part of
the produced text).  The `datetime.now()` date is passed in as `today`.
The `^...$`-anchored `MULTILINE` field patterns are tried at each
line-start position; as in the source, a greedy `\s*` before the capture
may cross line boundaries, and the captured `(.+)` never contains a
newline. -/

def containsAux (sub : List Char) : List Char → Bool
  | [] => sub.isEmpty
  | c :: r => sub.isPrefixOf (c :: r) || containsAux sub r

/-- Python `sub in s`: substring containment. -/
def strContains (sub s : String) : Bool := containsAux sub.data s.data

def pyLower (s : String) : String := ⟨s.data.map asciiLower⟩

/-- `determine_document_type`: keyword classification of a title. -/
def determine_document_type (title : String) : String :=
  let tl := pyLower title
  if strContains "guide" tl || strContains "tutorial" tl || strContains "how-to" tl then
    "Guide"
  else if strContains "paper" tl || strContains "research" tl || strContains "study" tl then
    "Paper"
  else if strContains "tutorial" tl || strContains "walkthrough" tl then
    "Tutorial"
  else "Specification"

/-- `\s*(.+)$` after a matched pattern prefix, capture stripped: the greedy
whitespace run (possibly crossing newlines) is skipped; if a non-whitespace
character follows, the capture runs to the end of that line; otherwise the
engine backtracks into a final whitespace character when one other than a
newline exists, and the stripped capture is empty. -/
def capVal (r : List Char) : Option (List Char) :=
  let t := r.dropWhile isPySpace
  if t ≠ [] then some (pyStrip (t.takeWhile (fun c => c ≠ '\n')))
  else if r.any (fun c => isPySpace c && c ≠ '\n') then some []
  else none

/-- `^\*\*F:\*\*\s*(.+)$` at one line start (case-insensitive). -/
def fieldPat1 (f : List Char) (l : List Char) : Option (List Char) :=
  (litPrefixCI ("**".data ++ f ++ ":**".data) l).bind capVal

/-- `^\*\*F\*\*:\s*(.+)$` at one line start. -/
def fieldPat2 (f : List Char) (l : List Char) : Option (List Char) :=
  (litPrefixCI ("**".data ++ f ++ "**:".data) l).bind capVal

/-- `^F:\s*(.+)$` at one line start. -/
def fieldPat3 (f : List Char) (l : List Char) : Option (List Char) :=
  (litPrefixCI (f ++ ":".data) l).bind capVal

/-- `^F\s*:\s*(.+)$` at one line start. -/
def fieldPat4 (f : List Char) (l : List Char) : Option (List Char) :=
  (litPrefixCI f l).bind fun r =>
    match r.dropWhile isPySpace with
    | ':' :: r2 => capVal r2
    | _ => none

/-- Try a matcher at the start of the text and after every newline
(`re.search` with a `^`-anchored `MULTILINE` pattern). -/
def lsScanAux {α : Type} (m : List Char → Option α) : Bool → List Char → Option α
  | atLS, [] => if atLS then m [] else none
  | atLS, c :: r =>
    match (if atLS then m (c :: r) else none) with
    | some v => some v
    | none => lsScanAux m (c = '\n') r

def lsScan {α : Type} (m : List Char → Option α) (l : List Char) : Option α :=
  lsScanAux m true l

/-- `extract_metadata_field`: the four patterns in order, each searched over
the whole content; the first match wins and its capture is stripped. -/
def extract_metadata_field (content : String) (fieldName : String) : Option String :=
  match lsScan (fieldPat1 fieldName.data) content.data with
  | some v => some ⟨v⟩
  | none =>
    match lsScan (fieldPat2 fieldName.data) content.data with
    | some v => some ⟨v⟩
    | none =>
      match lsScan (fieldPat3 fieldName.data) content.data with
      | some v => some ⟨v⟩
      | none => (lsScan (fieldPat4 fieldName.data) content.data).map fun v => ⟨v⟩

/-- `title\s*:\s*(.+)` (case insensitive, unanchored) at one position. -/
def titleAt (l : List Char) : Option (List Char) :=
  (litPrefixCI "title".data l).bind fun r =>
    match r.dropWhile isPySpace with
    | ':' :: r2 => capVal r2
    | _ => none

/-- `extract_document_title`. -/
def extract_document_title (content : String) : Option String :=
  (scanPos titleAt content.data).map fun v => ⟨v⟩

def truthy (o : Option String) : Bool :=
  match o with
  | some s => s ≠ ""
  | none => false

/-- Python `a or b` on extracted string fields. -/
def pyOr (a b : Option String) : Option String := if truthy a then a else b

/-- `os.path.basename` (POSIX). -/
def basenameStr (s : String) : String :=
  ⟨(s.data.reverse.takeWhile (fun c => c ≠ '/')).reverse⟩

/-- The root part of `os.path.splitext`: split at the last dot unless every
character before it is a dot. -/
def splitextRoot (l : List Char) : List Char :=
  match l.reverse.dropWhile (fun c => c ≠ '.') with
  | [] => l
  | _ :: revPre => if revPre.reverse.any (fun c => c ≠ '.') then revPre.reverse else l

def pyReplaceChar (a b : Char) (l : List Char) : List Char :=
  l.map fun c => if c = a then b else c

/-- `re.sub(r'\s+', ' ', s)`: collapse whitespace runs to one space. -/
def collapseWsAux : Bool → List Char → List Char
  | _, [] => []
  | prev, c :: r =>
    if isPySpace c then
      if prev then collapseWsAux true r else ' ' :: collapseWsAux true r
    else c :: collapseWsAux false r

def collapseWs (l : List Char) : List Char := collapseWsAux false l

/-- `name_without_ext` of the processed file. -/
def nameNoExt (ps : String) : List Char := splitextRoot (basenameStr ps).data

/-- The filename-derived fallback title: separators to spaces, whitespace
collapsed, stripped. -/
def fallbackTitle (filePath : String) : String :=
  ⟨pyStrip (collapseWs (pyReplaceChar '.' ' ' (pyReplaceChar '_' ' ' (nameNoExt filePath))))⟩

/-- `(Eco\.[^_]+)` at one position. -/
def ecoCompAt (l : List Char) : Option (List Char) :=
  (litPrefix "Eco.".data l).bind fun r =>
    match r.takeWhile (fun c => c ≠ '_') with
    | [] => none
    | t => some ("Eco.".data ++ t)

/-- Parameters of `create_meta` that shape the produced text. -/
structure MetaParams where
  filePath : String
  githubServerUrl : String
  repositoryName : String
  commitSha : String
  originalSourcePath : Option String
  today : String
  deriving DecidableEq, Repr

/-- The `source:` URL: explicit original path when given, otherwise the
legacy reconstruction from the file name. -/
def sourceUrl (ps : MetaParams) : String :=
  let base := ps.githubServerUrl ++ "/" ++ ps.repositoryName ++ "/blob/" ++ ps.commitSha ++ "/"
  match ps.originalSourcePath with
  | some p => base ++ p
  | none =>
    let nne := nameNoExt ps.filePath
    let originalFilename : String := (⟨nne⟩ : String) ++ ".fodt"
    let relativePath :=
      if strContains "Eco." ⟨nne⟩ then
        match scanPos ecoCompAt nne with
        | some comp => "components/" ++ ((⟨comp⟩ : String) ++ ("/" ++ originalFilename))
        | none => "components/" ++ originalFilename
      else "components/" ++ originalFilename
    base ++ relativePath

/-- The extracted field values feeding the generated header. -/
structure MetaFields where
  title : String
  documentType : String
  uspd : Option String
  tags : Option String
  version : Option String
  componentName : Option String
  cid : Option String
  shortDescription : Option String
  useCategory : Option String
  componentType : Option String
  marketplaceId : Option String
  marketplaceUrl : Option String
  deriving DecidableEq, Repr

def extractFields (ps : MetaParams) (content : String) : MetaFields :=
  let title :=
    match extract_document_title content with
    | some s => if s = "" then fallbackTitle ps.filePath else s
    | none => fallbackTitle ps.filePath
  { title := title
    documentType := determine_document_type title
    uspd := pyOr (extract_metadata_field content "USPD")
      (extract_metadata_field content "ЕСПД")
    tags := extract_metadata_field content "tags"
    version := extract_metadata_field content "Version"
    componentName := extract_metadata_field content "Name"
    cid := extract_metadata_field content "CID"
    shortDescription := extract_metadata_field content "Short Description (max 300 char.)"
    useCategory := extract_metadata_field content "Category"
    componentType := extract_metadata_field content "Type"
    marketplaceId := extract_metadata_field content "Marketplace ID"
    marketplaceUrl := extract_metadata_field content "Marketplace URL" }

/-- A frontmatter line emitted only when the field is truthy. -/
def optField (pre : String) (v : Option String) : List String :=
  match v with
  | some s => if s = "" then [] else [pre ++ (s ++ "\"")]
  | none => []

/-- The frontmatter lines strictly between the two `---` delimiters. -/
def midLinesOf (ps : MetaParams) (f : MetaFields) : List String :=
  ["title: \"" ++ (f.title ++ "\""), "layout: doc",
    "documentType: \"" ++ (f.documentType ++ "\"")] ++
  optField "documentUspd: \"" f.uspd ++
  optField "tags: \"" f.tags ++
  optField "version: \"" f.version ++
  ["lastModified: \"" ++ (ps.today ++ "\"")] ++
  optField "componentName: \"" f.componentName ++
  optField "CID: \"" f.cid ++
  optField "description: \"" f.shortDescription ++
  optField "useCategory: \"" (f.useCategory.map pyUpper) ++
  optField "type: \"" (f.componentType.map pyUpper) ++
  optField "registryId: \"" (f.marketplaceId.map pyUpper) ++
  optField "registryUrl: \"" f.marketplaceUrl ++
  ["source: \"" ++ (sourceUrl ps ++ "\""), "lastUpdated: true", "editLink: true",
    "sidebar: true"]

def midLines (ps : MetaParams) (content : String) : List String :=
  midLinesOf ps (extractFields ps content)

/-- The generated header (`frontmatter` in the source): the `---` line, the
field lines, the closing `---` and the blank line joined by LF. -/
def frontmatterOf (ps : MetaParams) (content : String) : String :=
  joinNl ("---" :: midLines ps content ++ ["---", ""])

def stripMarker : List Char := ['\n', '-', '-', '-', '\n']

/-- `re.search(r'\n---\n', content)` followed by `content[end():]`: the text
after the first occurrence of the delimiter. -/
def dropAfterMarker : List Char → Option (List Char)
  | [] => none
  | c :: r =>
    if stripMarker.isPrefixOf (c :: r) then some ((c :: r).drop 5)
    else dropAfterMarker r

/-- The `existing_content` computation: a document starting with `---\n`
has everything up to and including the first `\n---\n` stripped; otherwise
(or when no closing delimiter exists) the text is kept whole. -/
def stripExisting (content : String) : String :=
  if "---\n".data.isPrefixOf content.data then
    match dropAfterMarker content.data with
    | some rest => ⟨rest⟩
    | none => content
  else content

/-- The text written by `create_meta`: the generated header followed by the
body with any pre-existing header stripped. -/
def create_meta_content (ps : MetaParams) (content : String) : String :=
  frontmatterOf ps content ++ stripExisting content

/-- The newline-freedom of the provenance parameters needed for the header
to be well-formed (`\n` inside them would break the frontmatter lines). -/
def paramsNoNl (ps : MetaParams) : Prop :=
  ('\n' ∉ ps.filePath.data) ∧ ('\n' ∉ ps.githubServerUrl.data) ∧
  ('\n' ∉ ps.repositoryName.data) ∧ ('\n' ∉ ps.commitSha.data) ∧
  (match ps.originalSourcePath with
    | some p => '\n' ∉ p.data
    | none => True) ∧
  ('\n' ∉ ps.today.data)

/-! ## Concrete states used by the claim witnesses -/

def c2State : PyState :=
  ⟨some [("a.fodt", ⟨some 2, none, none, none⟩), ("b.fodt", ⟨some 3, none, none, none⟩),
    ("c.fodt", ⟨none, none, none, none⟩)], none, none, none⟩

def c1State : PyState := ⟨some [("a.fodt", ⟨some 2, none, none, none⟩)], none, none, none⟩

def c1Res : NewState :=
  ⟨[("a.fodt", ⟨some 3, some "T", some "conversion failed", some "C"⟩)], [], "C", "T"⟩

def c3State : PyState :=
  ⟨some [("a.fodt", ⟨some 1, none, none, none⟩), ("b.fodt", ⟨some 2, none, none, none⟩)],
    none, none, none⟩

def c3Res1 : NewState :=
  ⟨[("b.fodt", ⟨some 2, none, none, none⟩)],
    [("a.fodt", ⟨"T1", "C1", "sha256-placeholder"⟩)], "C1", "T1"⟩

def c3Res2 : NewState :=
  ⟨[("b.fodt", ⟨some 2, none, none, none⟩)],
    [("a.fodt", ⟨"T2", "C2", "sha256-placeholder"⟩)], "C2", "T2"⟩

def c9State : PyState := ⟨some [("a.fodt", ⟨some 2, none, none, none⟩)], none, none, none⟩

def c9Res : NewState :=
  ⟨[("a.fodt", ⟨some 3, some "T", some "conversion failed", some "C"⟩)],
    [("b.fodt", ⟨"T", "C", "sha256-placeholder"⟩)], "C", "T"⟩


def c5Ps1 : MetaParams :=
  ⟨"docs/Eco.X_spec.md", "https://example", "org/repo", "abc123", none, "2026-02-03"⟩

def c5Ps2 : MetaParams :=
  ⟨"other.md", "https://example", "org/repo", "def456", some "components/x.fodt",
    "2026-02-04"⟩

/-! ## Dictionary lemmas -/

theorem dictGet_nil {α : Type} (k : String) : dictGet k ([] : Dict α) = none := rfl

theorem dictGet_dictSet_self {α : Type} (k : String) (v : α) (d : Dict α) :
    dictGet k (dictSet k v d) = some v := by
  induction d with
  | nil => simp [dictSet, dictGet]
  | cons e rest ih =>
    obtain ⟨k', v'⟩ := e
    by_cases h : k' = k
    · simp [dictSet, dictGet, h]
    · simp [dictSet, dictGet, h, ih]

theorem dictGet_dictSet_ne {α : Type} {k k' : String} (hne : k' ≠ k) (v : α) (d : Dict α) :
    dictGet k (dictSet k' v d) = dictGet k d := by
  induction d with
  | nil => simp [dictSet, dictGet, hne]
  | cons e rest ih =>
    obtain ⟨k'', v''⟩ := e
    by_cases h : k'' = k'
    · subst h
      simp [dictSet, dictGet, hne]
    · by_cases h2 : k'' = k
      · have hksym : k ≠ k' := fun hh => hne hh.symm
        simp [dictSet, dictGet, h, h2, hksym]
      · simp [dictSet, dictGet, h, h2, ih]

theorem dictGet_filter_key {α : Type} (f : String → Bool) (k : String) (d : Dict α) :
    dictGet k (d.filter fun e => f e.1) = if f k then dictGet k d else none := by
  induction d with
  | nil => cases h : f k <;> simp [dictGet, h]
  | cons e rest ih =>
    obtain ⟨k', v'⟩ := e
    by_cases hk : k' = k
    · subst hk
      cases h : f k' <;> simp [dictGet, List.filter_cons, h, ih]
    · cases h : f k' <;> simp [dictGet, List.filter_cons, h, ih, hk]

theorem dictGet_mem {α : Type} {k : String} {r : α} {d : Dict α}
    (h : dictGet k d = some r) : (k, r) ∈ d := by
  induction d with
  | nil => simp [dictGet] at h
  | cons e rest ih =>
    obtain ⟨k', v'⟩ := e
    by_cases hk : k' = k
    · subst hk
      simp [dictGet] at h
      simp [h]
    · simp [dictGet, hk] at h
      exact List.mem_cons_of_mem _ (ih h)

theorem mem_dictGet {α : Type} {k : String} {r : α} {d : Dict α}
    (hn : keysNodup d) (h : (k, r) ∈ d) : dictGet k d = some r := by
  induction d with
  | nil => simp at h
  | cons e rest ih =>
    obtain ⟨k', v'⟩ := e
    simp [keysNodup, dictKeys] at hn
    rcases List.mem_cons.mp h with h1 | h1
    · obtain ⟨hk, hv⟩ := Prod.mk.injEq .. ▸ h1
      simp [dictGet, hk.symm, hv]
    · have hkne : k' ≠ k := by
        intro he
        subst he
        exact hn.1 r (by simpa using h1)
      simp [dictGet, hkne]
      exact ih hn.2 h1

theorem mem_dictSet {α : Type} {e : String × α} {k : String} {v : α} {d : Dict α}
    (h : e ∈ dictSet k v d) : e = (k, v) ∨ e ∈ d := by
  induction d with
  | nil => simp [dictSet] at h; simp [h]
  | cons e' rest ih =>
    obtain ⟨k', v'⟩ := e'
    by_cases hk : k' = k
    · simp [dictSet, hk] at h
      rcases h with h | h
      · exact Or.inl h
      · exact Or.inr (List.mem_cons_of_mem _ h)
    · simp only [dictSet, if_neg hk] at h
      rcases List.mem_cons.mp h with h | h
      · exact Or.inr (by simp [h])
      · rcases ih h with h | h
        · exact Or.inl h
        · exact Or.inr (List.mem_cons_of_mem _ h)

theorem dictKeys_dictSet {α : Type} (k : String) (v : α) (d : Dict α) :
    dictKeys (dictSet k v d) = if k ∈ dictKeys d then dictKeys d else dictKeys d ++ [k] := by
  induction d with
  | nil => simp [dictSet, dictKeys]
  | cons e rest ih =>
    obtain ⟨k', v'⟩ := e
    by_cases hk : k' = k
    · subst hk
      simp [dictSet, dictKeys]
    · have hne : k ≠ k' := fun h => hk h.symm
      simp only [dictSet, if_neg hk, dictKeys, List.map_cons] at ih ⊢
      rw [ih]
      by_cases hmem : k ∈ List.map Prod.fst rest
      · simp [hmem, hne]
      · simp [hmem, hne]

theorem keysNodup_dictSet {α : Type} {d : Dict α} (k : String) (v : α)
    (hn : keysNodup d) : keysNodup (dictSet k v d) := by
  unfold keysNodup at *
  rw [dictKeys_dictSet]
  by_cases hmem : k ∈ dictKeys d
  · simpa [hmem] using hn
  · simp only [hmem, if_false]
    simpa [List.nodup_append] using ⟨hn, hmem⟩

theorem keysNodup_filter {α : Type} (f : String × α → Bool) {d : Dict α}
    (hn : keysNodup d) : keysNodup (d.filter f) := by
  exact List.Nodup.sublist (List.Sublist.map _ (List.filter_sublist d)) hn

/-! ## The processed-files loop -/

/-- The processed loop keeps exactly the failure records of files that were
not successfully re-converted this run. -/
def keepEntry (processed failed : List String) (k : String) : Bool :=
  decide (¬(k ∈ processed ∧ k ≠ "" ∧ k ∉ failed))

theorem eraseFold_eq_filter (failed processed : List String) (d : Dict FRec) :
    processed.foldl (processedEraseStep failed) d
      = d.filter (fun e => keepEntry processed failed e.1) := by
  induction processed generalizing d with
  | nil => simp [keepEntry]
  | cons p ps ih =>
    rw [List.foldl_cons, ih]
    unfold processedEraseStep
    by_cases hc : p ≠ "" ∧ p ∉ failed
    · rw [if_pos hc]
      unfold dictErase
      rw [List.filter_filter]
      apply List.filter_congr
      intro e _
      rw [keepEntry, keepEntry, ← Bool.decide_and, decide_eq_decide, List.mem_cons]
      constructor
      · rintro ⟨hknot, hne⟩ ⟨hmem, hke, hkf⟩
        rcases hmem with h | h
        · exact hne h
        · exact hknot ⟨h, hke, hkf⟩
      · intro hnot
        constructor
        · rintro ⟨h1, h2, h3⟩
          exact hnot ⟨Or.inr h1, h2, h3⟩
        · rintro rfl
          exact hnot ⟨Or.inl rfl, hc.1, hc.2⟩
    · rw [if_neg hc]
      apply List.filter_congr
      intro e _
      rw [keepEntry, keepEntry, decide_eq_decide, List.mem_cons]
      constructor
      · rintro hknot ⟨hmem, hke, hkf⟩
        rcases hmem with h | h
        · exact hc ⟨h ▸ hke, h ▸ hkf⟩
        · exact hknot ⟨h, hke, hkf⟩
      · rintro hknot ⟨hmem, hke, hkf⟩
        exact hknot ⟨Or.inr hmem, hke, hkf⟩

/-- A step of the success-map fold for a path in the failed list changes
nothing. -/
theorem succFold_lookup_skip {failed : List String} {p : String} (hpf : p ∈ failed)
    (t c : String) (processed : List String) (m : Dict SRec) :
    dictGet p (processed.foldl (processedSuccStep failed t c) m) = dictGet p m := by
  induction processed generalizing m with
  | nil => rfl
  | cons q ps ih =>
    rw [List.foldl_cons, ih]
    unfold processedSuccStep
    by_cases hc : q ≠ "" ∧ q ∉ failed
    · have hqp : q ≠ p := fun h => hc.2 (h ▸ hpf)
      rw [if_pos hc, dictGet_dictSet_ne hqp]
    · rw [if_neg hc]

theorem succFold_lookup_not_mem {processed : List String} {p : String} (hpn : p ∉ processed)
    (failed : List String) (t c : String) (m : Dict SRec) :
    dictGet p (processed.foldl (processedSuccStep failed t c) m) = dictGet p m := by
  induction processed generalizing m with
  | nil => rfl
  | cons q ps ih =>
    have hq : p ∉ ps := fun h => hpn (List.mem_cons_of_mem _ h)
    have hqp : q ≠ p := fun h => hpn (h ▸ List.mem_cons_self _ _)
    rw [List.foldl_cons, ih hq]
    unfold processedSuccStep
    by_cases hc : q ≠ "" ∧ q ∉ failed
    · rw [if_pos hc, dictGet_dictSet_ne hqp]
    · rw [if_neg hc]

/-- A successfully processed path ends up bound to this run's success
record. -/
theorem succFold_lookup_mem {processed : List String} {p : String} (hpp : p ∈ processed)
    (hpe : p ≠ "") {failed : List String} (hpf : p ∉ failed) (t c : String) (m : Dict SRec) :
    dictGet p (processed.foldl (processedSuccStep failed t c) m)
      = some ⟨t, c, "sha256-placeholder"⟩ := by
  induction processed generalizing m with
  | nil => simp at hpp
  | cons q ps ih =>
    rw [List.foldl_cons]
    by_cases hq : p ∈ ps
    · exact ih hq _
    · have hqp : q = p := by
        rcases List.mem_cons.mp hpp with h | h
        · exact h.symm
        · exact absurd h hq
      subst hqp
      rw [succFold_lookup_not_mem hq]
      unfold processedSuccStep
      rw [if_pos ⟨hpe, hpf⟩, dictGet_dictSet_self]

/-! ## The failed-files loop -/

theorem failedStep_lookup_ne {t c q p : String} (hqp : q ≠ p) {d d' : Dict FRec}
    (h : failedStep t c d q = some d') : dictGet p d' = dictGet p d := by
  unfold failedStep at h
  by_cases hq : q = ""
  · simp [hq] at h
    rw [← h]
  · cases hg : dictGet q d with
    | some r =>
      cases ha : r.attemptCount with
      | some n =>
        simp [hq, hg, ha] at h
        rw [← h, dictGet_dictSet_ne hqp]
      | none => simp [hq, hg, ha] at h
    | none =>
      simp [hq, hg] at h
      rw [← h, dictGet_dictSet_ne hqp]

theorem failedLoop_lookup_not_mem {failed : List String} {p : String} (hpn : p ∉ failed)
    {t c : String} {d d' : Dict FRec} (h : failedLoop t c failed d = some d') :
    dictGet p d' = dictGet p d := by
  induction failed generalizing d with
  | nil => simp [failedLoop, List.foldlM] at h; rw [h]
  | cons q qs ih =>
    have hq : p ∉ qs := fun hm => hpn (List.mem_cons_of_mem _ hm)
    have hqp : q ≠ p := fun he => hpn (he ▸ List.mem_cons_self _ _)
    rw [failedLoop, List.foldlM_cons] at h
    cases hs : failedStep t c d q with
    | none => rw [hs] at h; simp at h
    | some d1 =>
      rw [hs] at h
      simp only [Option.bind_eq_bind, Option.some_bind] at h
      rw [ih hq h, failedStep_lookup_ne hqp hs]

theorem count_one_split {α : Type} [DecidableEq α] {a : α} {l : List α}
    (h : l.count a = 1) : ∃ l1 l2, l = l1 ++ a :: l2 ∧ a ∉ l1 ∧ a ∉ l2 := by
  induction l with
  | nil => simp at h
  | cons b t ih =>
    rw [List.count_cons] at h
    by_cases hba : b = a
    · subst hba
      simp at h
      exact ⟨[], t, rfl, by simp, List.count_eq_zero.mp h⟩
    · simp [hba] at h
      obtain ⟨l1, l2, he, h1, h2⟩ := ih h
      refine ⟨b :: l1, l2, by rw [he, List.cons_append], ?_, h2⟩
      intro hmem
      rcases List.mem_cons.mp hmem with h3 | h3
      · exact hba h3.symm
      · exact h1 h3

/-- The record written for a once-listed failed path: attempt counter
incremented (prior count read through `get`-with-default 0; a prior
record carrying no counter makes the whole run fail, so it cannot reach a
successful result), and `lastAttempt`, `lastError`, `sourceCommit`
overwritten. -/
theorem failedLoop_bump {failed : List String} {p : String} (hp : p ≠ "")
    (hcount : failed.count p = 1) {t c : String} {d d' : Dict FRec}
    (h : failedLoop t c failed d = some d') :
    dictGet p d' =
      some ⟨some (((dictGet p d).bind FRec.attemptCount).getD 0 + 1),
        some t, some "conversion failed", some c⟩ := by
  obtain ⟨l1, l2, he, h1, h2⟩ := count_one_split hcount
  subst he
  rw [failedLoop, List.foldlM_append] at h
  cases hs1 : List.foldlM (failedStep t c) d l1 with
  | none => rw [hs1] at h; simp at h
  | some d1 =>
    rw [hs1] at h
    simp only [Option.bind_eq_bind, Option.some_bind] at h
    rw [List.foldlM_cons] at h
    have hd1 : dictGet p d1 = dictGet p d := failedLoop_lookup_not_mem h1 hs1
    cases hs2 : failedStep t c d1 p with
    | none => rw [hs2] at h; simp at h
    | some d2 =>
      rw [hs2] at h
      simp only [Option.bind_eq_bind, Option.some_bind] at h
      have hd2 : dictGet p d2 =
          some ⟨some (((dictGet p d).bind FRec.attemptCount).getD 0 + 1),
            some t, some "conversion failed", some c⟩ := by
        unfold failedStep at hs2
        rw [if_neg hp] at hs2
        cases hg : dictGet p d1 with
        | some r =>
          cases ha : r.attemptCount with
          | some n =>
            simp [hg, ha] at hs2
            rw [← hs2, dictGet_dictSet_self, ← hd1, hg]
            simp [ha]
          | none => simp [hg, ha] at hs2
        | none =>
          simp [hg] at hs2
          rw [← hs2, dictGet_dictSet_self, ← hd1, hg]
          simp
      rw [failedLoop_lookup_not_mem h2 h, hd2]

/-- Starting from a failure map whose records all carry an attempt counter
(in particular from the empty map), the failed-files loop cannot raise. -/
theorem failedLoop_total {d : Dict FRec} (hd : ∀ e ∈ d, e.2.attemptCount.isSome)
    (t c : String) (failed : List String) :
    ∃ d', failedLoop t c failed d = some d' := by
  induction failed generalizing d with
  | nil => exact ⟨d, rfl⟩
  | cons q qs ih =>
    have hstep : ∃ d1, failedStep t c d q = some d1 ∧
        ∀ e ∈ d1, e.2.attemptCount.isSome := by
      by_cases hq : q = ""
      · exact ⟨d, by unfold failedStep; rw [if_pos hq], hd⟩
      · cases hg : dictGet q d with
        | some r =>
          cases ha : r.attemptCount with
          | some n =>
            refine ⟨dictSet q ⟨some (n + 1), some t, some "conversion failed", some c⟩ d,
              by unfold failedStep; simp [hq, hg, ha], ?_⟩
            intro e he
            rcases mem_dictSet he with h | h
            · rw [h]; rfl
            · exact hd e h
          | none =>
            have := hd _ (dictGet_mem hg)
            rw [ha] at this
            simp at this
        | none =>
          refine ⟨dictSet q ⟨some 1, some t, some "conversion failed", some c⟩ d,
            by unfold failedStep; simp [hq, hg], ?_⟩
          intro e he
          rcases mem_dictSet he with h | h
          · rw [h]; rfl
          · exact hd e h
    obtain ⟨d1, hs, hinv⟩ := hstep
    obtain ⟨d', hrest⟩ := ih hinv
    exact ⟨d', by rw [failedLoop, List.foldlM_cons, hs]; simpa [failedLoop] using hrest⟩

theorem keysNodup_failedStep {t c q : String} {d d' : Dict FRec}
    (h : failedStep t c d q = some d') (hn : keysNodup d) : keysNodup d' := by
  unfold failedStep at h
  by_cases hq : q = ""
  · simp [hq] at h
    rw [← h]; exact hn
  · cases hg : dictGet q d with
    | some r =>
      cases ha : r.attemptCount with
      | some n =>
        simp [hq, hg, ha] at h
        rw [← h]
        exact keysNodup_dictSet _ _ hn
      | none => simp [hq, hg, ha] at h
    | none =>
      simp [hq, hg] at h
      rw [← h]
      exact keysNodup_dictSet _ _ hn

theorem keysNodup_failedLoop {failed : List String} {t c : String} {d d' : Dict FRec}
    (h : failedLoop t c failed d = some d') (hn : keysNodup d) : keysNodup d' := by
  induction failed generalizing d with
  | nil => simp [failedLoop, List.foldlM] at h; rw [← h]; exact hn
  | cons q qs ih =>
    rw [failedLoop, List.foldlM_cons] at h
    cases hs : failedStep t c d q with
    | none => rw [hs] at h; simp at h
    | some d1 =>
      rw [hs] at h
      simp only [Option.bind_eq_bind, Option.some_bind] at h
      exact ih h (keysNodup_failedStep hs hn)

/-! ## Retry-query membership -/

theorem retryNames_mem {d : Dict FRec} (hn : keysNodup d) (p : String) :
    p ∈ retryNames d ↔ ∃ r, dictGet p d = some r ∧ r.attemptCount.getD 0 < 3 := by
  unfold retryNames
  rw [List.mem_map]
  constructor
  · rintro ⟨e, he, hfst⟩
    rw [List.mem_filter] at he
    obtain ⟨k, r⟩ := e
    refine ⟨r, ?_, by simpa using he.2⟩
    rw [← hfst]
    exact mem_dictGet hn he.1
  · rintro ⟨r, hg, hlt⟩
    exact ⟨(p, r), List.mem_filter.mpr ⟨dictGet_mem hg, by simpa using hlt⟩, rfl⟩

/-! ## Environment splitting -/

theorem splitWsAux_ne_empty (l : List Char) : ∀ acc, "" ∉ splitWsAux l acc := by
  induction l with
  | nil =>
    intro acc h
    unfold splitWsAux at h
    by_cases ha : acc = ([] : List Char)
    · simp [ha] at h
    · simp [ha, String.ext_iff] at h
  | cons c rest ih =>
    intro acc h
    unfold splitWsAux at h
    by_cases hsp : isPySpace c
    · by_cases ha : acc = ([] : List Char)
      · rw [if_pos hsp, if_pos ha] at h
        exact ih [] h
      · rw [if_pos hsp, if_neg ha] at h
        rcases List.mem_cons.mp h with h | h
        · exact ha (by simpa [String.ext_iff] using h)
        · exact ih [] h
    · rw [if_neg hsp] at h
      exact ih _ h

/-- Tokens produced by Python `str.split()` are never empty. -/
theorem envSplit_ne_empty (s : String) : "" ∉ envSplit s :=
  splitWsAux_ne_empty s.data []

theorem failedLoop_nil (t c : String) (d : Dict FRec) : failedLoop t c [] d = some d := rfl

theorem updateState_eq (s : PyState) (t c : String) (proc failed : List String) :
    updateState s t c proc failed
      = (failedLoop t c failed
          ((s.failedFiles.getD []).filter (fun e => keepEntry proc failed e.1))).map
          (fun d2 => ⟨d2, proc.foldl (processedSuccStep failed t c) [], c, t⟩) := by
  simp only [updateState]
  rw [eraseFold_eq_filter]

/-! ## Claim theorems: conversion state tracker -/

/-- **C2.** For every persisted failure map (with well-formed, duplicate-free
keys), the retry-candidate query of `check_failed_files.py` returns exactly
the file paths whose `attemptCount` is strictly below 3, a missing
`attemptCount` field counting as 0. -/
theorem retry_query_below_ceiling (s : PyState) (p : String)
    (hn : keysNodup (s.failedFiles.getD [])) :
    p ∈ retryFilesOf s ↔
      ∃ r, dictGet p (s.failedFiles.getD []) = some r ∧ r.attemptCount.getD 0 < 3 :=
  retryNames_mem hn p

theorem retry_query_below_ceiling_witness :
    ("a.fodt" ∈ retryFilesOf c2State ↔
      ∃ r, dictGet "a.fodt" (c2State.failedFiles.getD []) = some r ∧
        r.attemptCount.getD 0 < 3) ∧
    ("b.fodt" ∈ retryFilesOf c2State ↔
      ∃ r, dictGet "b.fodt" (c2State.failedFiles.getD []) = some r ∧
        r.attemptCount.getD 0 < 3) :=
  ⟨retry_query_below_ceiling c2State "a.fodt" (by decide),
    retry_query_below_ceiling c2State "b.fodt" (by decide)⟩

/-- **C1.** Running `update_state.py` with path `p` listed (once) in
`FAILED_FILES` rebinds `p` in `failedFiles` to a record whose
`attemptCount` is the prior count plus one (1 when `p` had no prior
record) and whose `lastAttempt`, `lastError` and `sourceCommit` fields are
overwritten with this run's values; `p` is then a retry candidate of the
new state exactly when the new count is below 3. -/
theorem failed_attempt_incremented (s : PyState) (t c procEnv failEnv p : String)
    (res : NewState)
    (hn : keysNodup (s.failedFiles.getD []))
    (hp : p ≠ "")
    (hcount : (envSplit failEnv).count p = 1)
    (h : updateStateEnv s t c procEnv failEnv = some res) :
    dictGet p res.failedFiles =
      some ⟨some (((dictGet p (s.failedFiles.getD [])).bind FRec.attemptCount).getD 0 + 1),
        some t, some "conversion failed", some c⟩ ∧
    (p ∈ retryFilesOf res.toPyState ↔
      ((dictGet p (s.failedFiles.getD [])).bind FRec.attemptCount).getD 0 + 1 < 3) := by
  rw [updateStateEnv, updateState_eq, Option.map_eq_some'] at h
  obtain ⟨d2, hloop, hres⟩ := h
  have hpf : p ∈ envSplit failEnv := by
    rw [← List.count_pos_iff, hcount]
    exact Nat.one_pos
  have hd1 : dictGet p ((s.failedFiles.getD []).filter
      (fun e => keepEntry (envSplit procEnv) (envSplit failEnv) e.1))
      = dictGet p (s.failedFiles.getD []) := by
    rw [dictGet_filter_key]
    simp [keepEntry, hpf]
  have hbump := failedLoop_bump hp hcount hloop
  rw [hd1] at hbump
  have hnod : keysNodup d2 :=
    keysNodup_failedLoop hloop (keysNodup_filter _ hn)
  have hff : res.failedFiles = d2 := by rw [← hres]
  have hretry : retryFilesOf res.toPyState = retryNames res.failedFiles := rfl
  constructor
  · rw [hff, hbump]
  · rw [hretry, hff]
    rw [retryNames_mem hnod]
    constructor
    · rintro ⟨r, hr, hlt⟩
      rw [hbump] at hr
      obtain rfl : r = ⟨some (((dictGet p (s.failedFiles.getD [])).bind
          FRec.attemptCount).getD 0 + 1), some t, some "conversion failed", some c⟩ := by
        simpa using hr.symm
      simpa using hlt
    · intro hlt
      exact ⟨_, hbump, by simpa using hlt⟩

/-- The end-to-end scenario of C1: prior `attemptCount` 2 for `a.fodt`,
`FAILED_FILES=a.fodt`, new count 3, and `a.fodt` is no longer a retry
candidate. -/
theorem failed_attempt_incremented_witness :
    dictGet "a.fodt" c1Res.failedFiles
        = some ⟨some 3, some "T", some "conversion failed", some "C"⟩ ∧
    "a.fodt" ∉ retryFilesOf c1Res.toPyState := by
  have h := failed_attempt_incremented c1State "T" "C" "" "a.fodt" "a.fodt" c1Res
    (by decide) (by decide) (by decide) (by decide)
  have he : ((dictGet "a.fodt" (c1State.failedFiles.getD [])).bind
      FRec.attemptCount).getD 0 = 2 := by decide
  rw [he] at h
  refine ⟨h.1, fun hm => ?_⟩
  have := h.2.mp hm
  norm_num at this

/-- **C3.** With no failed files, running `update_state.py` twice with the
same processed-file set produces the same `failedFiles` map as running it
once (in particular the second run increments no attempt counter, since the
map is unchanged), and every processed file has its residual failure record
removed and a success record (timestamp, source commit, hash placeholder)
added. -/
theorem success_update_idempotent (s : PyState) (t1 c1 t2 c2 procEnv failEnv : String)
    (r1 r2 : NewState)
    (hfe : envSplit failEnv = [])
    (h1 : updateStateEnv s t1 c1 procEnv failEnv = some r1)
    (h2 : updateStateEnv r1.toPyState t2 c2 procEnv failEnv = some r2) :
    r2.failedFiles = r1.failedFiles ∧
    ∀ p ∈ envSplit procEnv,
      dictGet p r1.failedFiles = none ∧
      dictGet p r1.successfulFiles = some ⟨t1, c1, "sha256-placeholder"⟩ := by
  rw [updateStateEnv, updateState_eq, hfe, failedLoop_nil, Option.map_some'] at h1 h2
  have hr1 : r1 = ⟨(s.failedFiles.getD []).filter
      (fun e => keepEntry (envSplit procEnv) [] e.1),
      (envSplit procEnv).foldl (processedSuccStep [] t1 c1) [], c1, t1⟩ :=
    (Option.some.injEq .. ▸ h1).symm
  have hr2 : r2 = ⟨(r1.toPyState.failedFiles.getD []).filter
      (fun e => keepEntry (envSplit procEnv) [] e.1),
      (envSplit procEnv).foldl (processedSuccStep [] t2 c2) [], c2, t2⟩ :=
    (Option.some.injEq .. ▸ h2).symm
  constructor
  · rw [hr2, hr1]
    simp only [NewState.toPyState, Option.getD_some]
    rw [List.filter_filter]
    exact List.filter_congr fun e _ => Bool.and_self _
  · intro p hpp
    have hpe : p ≠ "" := fun he => envSplit_ne_empty procEnv (he ▸ hpp)
    constructor
    · rw [hr1]
      rw [dictGet_filter_key]
      have : keepEntry (envSplit procEnv) [] p = false := by
        simp [keepEntry, hpp, hpe]
      rw [this, if_neg (by simp)]
    · rw [hr1]
      exact succFold_lookup_mem hpp hpe (by simp) t1 c1 []

theorem success_update_idempotent_witness :
    c3Res2.failedFiles = c3Res1.failedFiles ∧
    ∀ p ∈ envSplit "a.fodt",
      dictGet p c3Res1.failedFiles = none ∧
      dictGet p c3Res1.successfulFiles = some ⟨"T1", "C1", "sha256-placeholder"⟩ :=
  success_update_idempotent c3State "T1" "C1" "T2" "C2" "a.fodt" "" c3Res1 c3Res2
    (by decide) (by decide) (by decide)

/-- **C8.** Loading the conversion state never raises: when the state file
is missing, unreadable or malformed JSON (read outcome `none`), the updater
substitutes the empty state and still completes with a written new state,
and the read-only accessors `check_failed_files.py` and `load_state.py`
print an empty default instead of propagating the error. -/
theorem state_load_error_tolerance (t c procEnv failEnv : String) :
    updateStateScript none t c procEnv failEnv
        = updateStateEnv emptyPyState t c procEnv failEnv ∧
    (∃ r, updateStateScript none t c procEnv failEnv = some r) ∧
    checkFailedFilesOutput none = "" ∧
    loadStateOutput none = "" := by
  refine ⟨rfl, ?_, rfl, rfl⟩
  rw [updateStateScript, updateStateEnv, updateState_eq]
  obtain ⟨d', hd'⟩ := failedLoop_total (d := ([] : Dict FRec)) (by simp) t c
    (envSplit failEnv)
  have hd0 : (loadStateOrEmpty none).failedFiles.getD [] = ([] : Dict FRec) := rfl
  rw [hd0, List.filter_nil, hd']
  exact ⟨_, rfl⟩

/-- **C9.** A path listed in both `PROCESSED_FILES` and `FAILED_FILES` is
treated as failed: it is not added to `successfulFiles`, its failure record
is bumped exactly as for a purely failed file (attempt counter incremented,
or initialized to 1, and the attempt fields overwritten), and the resulting
`failedFiles` map is identical to the one produced when the path is dropped
from the processed list. -/
theorem failed_overrides_processed (s : PyState) (t c procEnv failEnv p : String)
    (res : NewState)
    (hpp : p ∈ envSplit procEnv)
    (hpf : p ∈ envSplit failEnv)
    (hp : p ≠ "")
    (hcount : (envSplit failEnv).count p = 1)
    (h : updateStateEnv s t c procEnv failEnv = some res) :
    dictGet p res.successfulFiles = none ∧
    dictGet p res.failedFiles =
      some ⟨some (((dictGet p (s.failedFiles.getD [])).bind FRec.attemptCount).getD 0 + 1),
        some t, some "conversion failed", some c⟩ ∧
    (updateState s t c ((envSplit procEnv).filter (fun q => q ≠ p)) (envSplit failEnv)).map
        NewState.failedFiles = some res.failedFiles := by
  rw [updateStateEnv, updateState_eq, Option.map_eq_some'] at h
  obtain ⟨d2, hloop, hres⟩ := h
  have hff : res.failedFiles = d2 := by rw [← hres]
  have hsf : res.successfulFiles
      = (envSplit procEnv).foldl (processedSuccStep (envSplit failEnv) t c) [] := by
    rw [← hres]
  have hfiltereq : (s.failedFiles.getD []).filter
        (fun e => keepEntry ((envSplit procEnv).filter (fun q => q ≠ p))
          (envSplit failEnv) e.1)
      = (s.failedFiles.getD []).filter
        (fun e => keepEntry (envSplit procEnv) (envSplit failEnv) e.1) := by
    apply List.filter_congr
    intro e _
    rw [keepEntry, keepEntry, decide_eq_decide]
    constructor
    · rintro hknot ⟨hmem, hke, hkf⟩
      by_cases hep : e.1 = p
      · exact hkf (hep ▸ hpf)
      · exact hknot ⟨List.mem_filter.mpr ⟨hmem, by simpa using hep⟩, hke, hkf⟩
    · rintro hknot ⟨hmem, hke, hkf⟩
      exact hknot ⟨(List.mem_filter.mp hmem).1, hke, hkf⟩
  refine ⟨?_, ?_, ?_⟩
  · rw [hsf, succFold_lookup_skip hpf]
    rfl
  · have hd1 : dictGet p ((s.failedFiles.getD []).filter
        (fun e => keepEntry (envSplit procEnv) (envSplit failEnv) e.1))
        = dictGet p (s.failedFiles.getD []) := by
      rw [dictGet_filter_key]
      simp [keepEntry, hpf]
    have hbump := failedLoop_bump hp hcount hloop
    rw [hd1] at hbump
    rw [hff, hbump]
  · rw [updateState_eq, hfiltereq, hloop, Option.map_some', Option.map_some', hff]

theorem failed_overrides_processed_witness :
    dictGet "a.fodt" c9Res.successfulFiles = none ∧
    dictGet "a.fodt" c9Res.failedFiles =
      some ⟨some (((dictGet "a.fodt" (c9State.failedFiles.getD [])).bind
          FRec.attemptCount).getD 0 + 1),
        some "T", some "conversion failed", some "C"⟩ ∧
    (updateState c9State "T" "C"
        ((envSplit "a.fodt b.fodt").filter (fun q => q ≠ "a.fodt"))
        (envSplit "a.fodt")).map NewState.failedFiles = some c9Res.failedFiles :=
  failed_overrides_processed c9State "T" "C" "a.fodt b.fodt" "a.fodt" "a.fodt" c9Res
    (by decide) (by decide) (by decide) (by decide) (by decide)

/-! ## Order lemmas for the registry sort key -/

theorem charToNat_inj {a b : Char} (h : a.toNat = b.toNat) : a = b :=
  Char.ext (UInt32.ext h)

theorem pyListLt_asymm : ∀ {a b : List Char},
    pyListLt a b = true → pyListLt b a = false := by
  intro a
  induction a with
  | nil =>
    intro b h
    cases b with
    | nil => simp [pyListLt] at h
    | cons y ys => rfl
  | cons x xs ih =>
    intro b h
    cases b with
    | nil => simp [pyListLt] at h
    | cons y ys =>
      simp only [pyListLt] at h ⊢
      by_cases hxy : x.toNat < y.toNat
      · have h1 : ¬ y.toNat < x.toNat := by omega
        simp [hxy, h1]
      · by_cases hyx : y.toNat < x.toNat
        · rw [if_neg hxy, if_pos hyx] at h
          exact absurd h (by simp)
        · rw [if_neg hxy, if_neg hyx] at h
          simp [hxy, hyx, ih h]

theorem pyListLt_trans : ∀ {a b c : List Char},
    pyListLt a b = true → pyListLt b c = true → pyListLt a c = true := by
  intro a
  induction a with
  | nil =>
    intro b c h1 h2
    cases b with
    | nil => simp [pyListLt] at h1
    | cons y ys =>
      cases c with
      | nil => simp [pyListLt] at h2
      | cons z zs => rfl
  | cons x xs ih =>
    intro b c h1 h2
    cases b with
    | nil => simp [pyListLt] at h1
    | cons y ys =>
      cases c with
      | nil => simp [pyListLt] at h2
      | cons z zs =>
        simp only [pyListLt] at h1 h2 ⊢
        by_cases hxy : x.toNat < y.toNat
        · by_cases hyz : y.toNat < z.toNat
          · simp [Nat.lt_trans hxy hyz]
          · by_cases hzy : z.toNat < y.toNat
            · rw [if_neg hyz, if_pos hzy] at h2
              exact absurd h2 (by simp)
            · have : x.toNat < z.toNat := by omega
              simp [this]
        · by_cases hyx : y.toNat < x.toNat
          · rw [if_neg hxy, if_pos hyx] at h1
            exact absurd h1 (by simp)
          · rw [if_neg hxy, if_neg hyx] at h1
            by_cases hyz : y.toNat < z.toNat
            · have : x.toNat < z.toNat := by omega
              simp [this]
            · by_cases hzy : z.toNat < y.toNat
              · rw [if_neg hyz, if_pos hzy] at h2
                exact absurd h2 (by simp)
              · rw [if_neg hyz, if_neg hzy] at h2
                have hnxz : ¬ x.toNat < z.toNat := by omega
                have hnzx : ¬ z.toNat < x.toNat := by omega
                simp [hnxz, hnzx, ih h1 h2]

theorem pyListLt_eq_of_both_false : ∀ {a b : List Char},
    pyListLt a b = false → pyListLt b a = false → a = b := by
  intro a
  induction a with
  | nil =>
    intro b h1 _
    cases b with
    | nil => rfl
    | cons y ys => simp [pyListLt] at h1
  | cons x xs ih =>
    intro b h1 h2
    cases b with
    | nil => simp [pyListLt] at h2
    | cons y ys =>
      simp only [pyListLt] at h1 h2
      by_cases hxy : x.toNat < y.toNat
      · rw [if_pos hxy] at h1
        exact absurd h1 (by simp)
      · by_cases hyx : y.toNat < x.toNat
        · rw [if_pos hyx] at h2
          exact absurd h2 (by simp)
        · rw [if_neg hxy, if_neg hyx] at h1
          rw [if_neg hyx, if_neg hxy] at h2
          have hxy' : x = y := charToNat_inj (by omega)
          rw [hxy', ih h1 h2]

theorem keyLt_asymm {x y : String × Nat × Nat} (h : keyLt x y = true) :
    keyLt y x = false := by
  unfold keyLt at h ⊢
  by_cases h1 : pyListLt x.1.data y.1.data
  · simp [h1, pyListLt_asymm h1]
  · rw [if_neg h1] at h
    by_cases h2 : pyListLt y.1.data x.1.data
    · rw [if_pos h2] at h
      exact absurd h (by simp)
    · rw [if_neg h2] at h
      rw [if_neg h2, if_neg h1]
      by_cases h3 : x.2.1 < y.2.1
      · have : ¬ y.2.1 < x.2.1 := by omega
        simp [h3, this]
      · rw [if_neg h3] at h
        by_cases h4 : y.2.1 < x.2.1
        · rw [if_pos h4] at h
          exact absurd h (by simp)
        · rw [if_neg h4] at h
          simp only [decide_eq_true_eq] at h
          have : ¬ y.2.2 < x.2.2 := by omega
          simp [h4, h3, this]

theorem keyLt_trans {x y z : String × Nat × Nat} (h1 : keyLt x y = true)
    (h2 : keyLt y z = true) : keyLt x z = true := by
  unfold keyLt at h1 h2 ⊢
  by_cases a1 : pyListLt x.1.data y.1.data
  · by_cases a2 : pyListLt y.1.data z.1.data
    · simp [pyListLt_trans a1 a2]
    · rw [if_neg a2] at h2
      by_cases a3 : pyListLt z.1.data y.1.data
      · rw [if_pos a3] at h2
        exact absurd h2 (by simp)
      · have hyz : y.1 = z.1 := String.ext (pyListLt_eq_of_both_false (by simpa using a2) (by simpa using a3))
        rw [← hyz]
        simp [a1]
  · rw [if_neg a1] at h1
    by_cases a4 : pyListLt y.1.data x.1.data
    · rw [if_pos a4] at h1
      exact absurd h1 (by simp)
    · rw [if_neg a4] at h1
      have hxy : x.1 = y.1 := String.ext (pyListLt_eq_of_both_false (by simpa using a1) (by simpa using a4))
      by_cases a2 : pyListLt y.1.data z.1.data
      · rw [hxy]
        simp [a2]
      · rw [if_neg a2] at h2
        by_cases a3 : pyListLt z.1.data y.1.data
        · rw [if_pos a3] at h2
          exact absurd h2 (by simp)
        · rw [if_neg a3] at h2
          rw [hxy]
          rw [if_neg a2, if_neg a3]
          by_cases b1 : x.2.1 < y.2.1
          · by_cases b2 : y.2.1 < z.2.1
            · have hb : x.2.1 < z.2.1 := by omega
              simp [hb]
            · rw [if_neg b2] at h2
              by_cases b3 : z.2.1 < y.2.1
              · rw [if_pos b3] at h2
                exact absurd h2 (by simp)
              · have hb : x.2.1 < z.2.1 := by omega
                simp [hb]
          · rw [if_neg b1] at h1
            by_cases b4 : y.2.1 < x.2.1
            · rw [if_pos b4] at h1
              exact absurd h1 (by simp)
            · rw [if_neg b4] at h1
              simp only [decide_eq_true_eq] at h1
              by_cases b2 : y.2.1 < z.2.1
              · have hb : x.2.1 < z.2.1 := by omega
                simp [hb]
              · rw [if_neg b2] at h2
                by_cases b3 : z.2.1 < y.2.1
                · rw [if_pos b3] at h2
                  exact absurd h2 (by simp)
                · rw [if_neg b3] at h2
                  simp only [decide_eq_true_eq] at h2
                  have c1 : ¬ x.2.1 < z.2.1 := by omega
                  have c2 : ¬ z.2.1 < x.2.1 := by omega
                  simp [c1, c2]
                  omega

theorem keyLt_eq_of_both_false {x y : String × Nat × Nat} (h1 : keyLt x y = false)
    (h2 : keyLt y x = false) : x = y := by
  unfold keyLt at h1 h2
  by_cases a1 : pyListLt x.1.data y.1.data
  · rw [if_pos a1] at h1
    exact absurd h1 (by simp)
  · by_cases a2 : pyListLt y.1.data x.1.data
    · rw [if_pos a2] at h2
      exact absurd h2 (by simp)
    · have hs : x.1 = y.1 := String.ext
        (pyListLt_eq_of_both_false (by simpa using a1) (by simpa using a2))
      rw [if_neg a1, if_neg a2] at h1
      rw [if_neg a2, if_neg a1] at h2
      by_cases b1 : x.2.1 < y.2.1
      · rw [if_pos b1] at h1
        exact absurd h1 (by simp)
      · by_cases b2 : y.2.1 < x.2.1
        · rw [if_pos b2] at h2
          exact absurd h2 (by simp)
        · rw [if_neg b1, if_neg b2] at h1
          rw [if_neg b2, if_neg b1] at h2
          simp only [decide_eq_false_iff_not] at h1 h2
          have ha : x.2.1 = y.2.1 := by omega
          have hb : x.2.2 = y.2.2 := by omega
          have h2eq : x.2 = y.2 := Prod.ext_iff.mpr ⟨ha, hb⟩
          exact Prod.ext_iff.mpr ⟨hs, h2eq⟩

/-! ## Claim theorems: registry builder -/

/-- **C4** (amended).  The registry sort key is total: `sort_uspd_key`
returns a 3-tuple for every identifier string; an identifier of the shape
`XX.ECO.NNNNN-NN` (two upper-case letters, five digits, two digits, with
anything after) decomposes into `(locale, int, int)`, and every other
string falls back to `(original string, 0, 0)`.  The claim's ordering
clause fails (see the counterexample): a malformed identifier need not
compare after all well-formed ones — it does so only when its text extends
the locale prefix of the well-formed key. -/
theorem sort_key_total (s : String) :
    (∀ (p : UspdParts) (rest : List Char),
      s.data = p.l1 :: p.l2 :: '.' :: 'E' :: 'C' :: 'O' :: '.' :: p.d1 :: p.d2 :: p.d3 ::
          p.d4 :: p.d5 :: '-' :: p.e1 :: p.e2 :: rest →
      uspdCond p = true →
      sort_uspd_key s = (⟨[p.l1, p.l2]⟩, num5 p, num2 p)) ∧
    (matchUspd s.data = none → sort_uspd_key s = (s, 0, 0)) := by
  constructor
  · rintro ⟨l1, l2, d1, d2, d3, d4, d5, e1, e2⟩ rest hdata hcond
    unfold sort_uspd_key
    rw [hdata]
    simp [matchUspd, hcond]
  · intro h
    unfold sort_uspd_key
    rw [h]

theorem sort_key_total_witness :
    sort_uspd_key "RU.ECO.00005-01" = ("RU", 5, 1) ∧
    sort_uspd_key "zzz" = ("zzz", 0, 0) := by
  have h1 := (sort_key_total "RU.ECO.00005-01").1
    ⟨'R', 'U', '0', '0', '0', '0', '5', '0', '1'⟩ [] (by decide) (by decide)
  have h2 := (sort_key_total "zzz").2 (by decide)
  refine ⟨?_, h2⟩
  rw [h1]
  decide

/-- The ordering clause of C4 is false on the code: the malformed
identifier `"AA"` gets the fallback key `("AA", 0, 0)`, which compares
*before* the key `("RU", 5, 1)` of the well-formed `RU.ECO.00005-01` under
the tuple order used by the sort. -/
theorem sort_key_order_counterexample :
    matchUspd "AA".data = none ∧
    sort_uspd_key "AA" = ("AA", 0, 0) ∧
    matchUspd "RU.ECO.00005-01".data ≠ none ∧
    keyLt (sort_uspd_key "AA") (sort_uspd_key "RU.ECO.00005-01") = true := by decide

/-- **C6.** A document from which no identifier can be extracted — the body
scan finds none in the first 10000 characters and the filename does not
match the USPD pattern — yields no identifier from the metadata
extraction, and the registry output is the same as if the document were
not scanned at all: no malformed or placeholder row. -/
theorem no_identifier_is_dropped (pre post : List (String × String)) (fn content : String)
    (hbody : scanPos uspdBodyAt (content.data.take 10000) = none)
    (hfile : extract_uspd_from_filename fn = none) :
    (extract_metadata_from_fodt fn content).1 = none ∧
    generate_registry (pre ++ (fn, content) :: post) = generate_registry (pre ++ post) := by
  have hex : (extract_metadata_from_fodt fn content).1 = none := by
    unfold extract_metadata_from_fodt
    simp [hbody, hfile]
  refine ⟨hex, ?_⟩
  have hnone : mkRegEntry fn content = none := by
    unfold mkRegEntry
    simp [hex]
  have hent : registryEntries (pre ++ (fn, content) :: post)
      = registryEntries (pre ++ post) := by
    unfold registryEntries
    rw [List.filterMap_append, List.filterMap_append, List.filterMap_cons]
    simp [hnone]
  unfold generate_registry
  rw [hent]

theorem no_identifier_is_dropped_witness :
    (extract_metadata_from_fodt "readme.fodt" "hello").1 = none ∧
    generate_registry [("readme.fodt", "hello")] = generate_registry [] :=
  no_identifier_is_dropped [] [] "readme.fodt" "hello" (by decide) (by decide)

/-- **C7** (amended).  The registry output is a single LF-terminated text:
the four fixed header lines (title, blank, format line, blank — two
non-blank header lines) followed by one `CODE : Name : ID : Description`
line *per scanned document with an extractable identifier* — documents are
not deduplicated by identifier (see the counterexample) — ordered by the
sort key. -/
theorem registry_output_structure (files : List (String × String)) :
    ∃ L : List RegEntry,
      generate_registry files
          = joinNl (registryHeaderLines ++ L.map entryLine) ++ "\n" ∧
      L.Perm (registryEntries files) ∧
      L.Pairwise (fun a b => keyLt (entryKey b) (entryKey a) = false) := by
  haveI htot : IsTotal RegEntry (fun a b => keyLt (entryKey b) (entryKey a) = false) := by
    constructor
    intro a b
    by_cases h : keyLt (entryKey b) (entryKey a) = true
    · exact Or.inr (keyLt_asymm h)
    · exact Or.inl (by simpa using h)
  haveI htrans : IsTrans RegEntry (fun a b => keyLt (entryKey b) (entryKey a) = false) := by
    constructor
    intro a b c h1 h2
    by_cases hh : keyLt (entryKey c) (entryKey a) = true
    · exfalso
      by_cases h3 : keyLt (entryKey c) (entryKey b) = true
      · rw [h2] at h3
        exact absurd h3 (by simp)
      · by_cases h4 : keyLt (entryKey b) (entryKey c) = true
        · have := keyLt_trans h4 hh
          rw [h1] at this
          exact absurd this (by simp)
        · have heq : entryKey b = entryKey c :=
            keyLt_eq_of_both_false (by simpa using h4) (by simpa using h3)
          rw [← heq] at hh
          rw [h1] at hh
          exact absurd hh (by simp)
    · simpa using hh
  exact ⟨sortEntries (registryEntries files), rfl,
    List.perm_insertionSort _ _, List.sorted_insertionSort _ _⟩

/-- The uniqueness clause of C7 is false on the code: two scanned documents
with the same extractable identifier each produce a registry line — the
entry line for `RU.ECO.00001-01` appears twice, and the four fixed header
lines precede them. -/
theorem registry_unique_line_counterexample :
    generate_registry
        [("RU.ECO.00001-01_90.fodt", "x"), ("RU.ECO.00001-01_90.fodt", "x")]
      = "# ECOOS DOCUMENTS REGISTRY\n\n## Format USPD number : Product\x27s Name : Component\x27s CID : Short description\n\nRU.ECO.00001-01 : N/A : N/A : N/A\nRU.ECO.00001-01 : N/A : N/A : N/A\n" ∧
    (linesOf (generate_registry
        [("RU.ECO.00001-01_90.fodt", "x"), ("RU.ECO.00001-01_90.fodt", "x")])).count
      "RU.ECO.00001-01 : N/A : N/A : N/A" = 2 := by
  constructor
  · set_option maxRecDepth 10000 in decide
  · set_option maxRecDepth 10000 in decide

/-! ## Claim theorems: document-type classification -/

/-- **C10.** A title whose lowercase form contains `"tutorial"` is
classified `"Guide"` (the first keyword list wins), and
`determine_document_type` returns `"Tutorial"` exactly for titles
containing `"walkthrough"` but none of `"guide"`, `"tutorial"`,
`"how-to"`, `"paper"`, `"research"`, `"study"`. -/
theorem tutorial_classified_as_guide (title : String) :
    (strContains "tutorial" (pyLower title) = true →
      determine_document_type title = "Guide") ∧
    (determine_document_type title = "Tutorial" ↔
      (strContains "walkthrough" (pyLower title) = true ∧
       strContains "guide" (pyLower title) = false ∧
       strContains "tutorial" (pyLower title) = false ∧
       strContains "how-to" (pyLower title) = false ∧
       strContains "paper" (pyLower title) = false ∧
       strContains "research" (pyLower title) = false ∧
       strContains "study" (pyLower title) = false)) := by
  simp only [determine_document_type]
  constructor
  · intro h
    simp [h]
  · constructor
    · intro heq
      by_cases h1 : (strContains "guide" (pyLower title) ||
          strContains "tutorial" (pyLower title) ||
          strContains "how-to" (pyLower title)) = true
      · rw [if_pos h1] at heq
        exact absurd heq (by decide)
      · rw [if_neg h1] at heq
        by_cases h2 : (strContains "paper" (pyLower title) ||
            strContains "research" (pyLower title) ||
            strContains "study" (pyLower title)) = true
        · rw [if_pos h2] at heq
          exact absurd heq (by decide)
        · rw [if_neg h2] at heq
          by_cases h3 : (strContains "tutorial" (pyLower title) ||
              strContains "walkthrough" (pyLower title)) = true
          · simp only [Bool.or_eq_true, not_or, Bool.not_eq_true] at h1 h2
            simp only [Bool.or_eq_true] at h3
            rcases h3 with h3 | h3
            · exact absurd h3 (by simp [h1.1.2])
            · exact ⟨h3, h1.1.1, h1.1.2, h1.2, h2.1.1, h2.1.2, h2.2⟩
          · rw [if_neg h3] at heq
            exact absurd heq (by decide)
    · rintro ⟨hw, hg, ht, hh, hp, hr, hs⟩
      simp [hg, ht, hh, hp, hr, hs, hw]

theorem tutorial_classified_as_guide_witness :
    determine_document_type "COFF Tutorial" = "Guide" ∧
    determine_document_type "Setup walkthrough" = "Tutorial" :=
  ⟨(tutorial_classified_as_guide "COFF Tutorial").1 (by decide),
    (tutorial_classified_as_guide "Setup walkthrough").2.mpr (by decide)⟩

/-! ## Newline-freedom of the generated header lines -/

theorem pyStrip_subset {c : Char} {l : List Char} (h : c ∈ pyStrip l) : c ∈ l := by
  unfold pyStrip at h
  rw [List.mem_reverse] at h
  have h2 := (List.dropWhile_sublist _).subset h
  rw [List.mem_reverse] at h2
  exact (List.dropWhile_sublist _).subset h2

theorem capVal_noNl {r v : List Char} (h : capVal r = some v) : '\n' ∉ v := by
  unfold capVal at h
  by_cases ht : r.dropWhile isPySpace ≠ []
  · rw [if_pos ht] at h
    simp only [Option.some.injEq] at h
    intro hmem
    rw [← h] at hmem
    have := List.mem_takeWhile_imp (pyStrip_subset hmem)
    simp at this
  · rw [if_neg ht] at h
    by_cases ha : r.any (fun c => isPySpace c && c ≠ '\n') = true
    · rw [if_pos ha] at h
      simp only [Option.some.injEq] at h
      rw [← h]
      simp
    · rw [if_neg ha] at h
      simp at h

theorem lsScanAux_some {α : Type} {m : List Char → Option α} :
    ∀ {b : Bool} {l : List Char} {v : α},
    lsScanAux m b l = some v → ∃ l', m l' = some v := by
  intro b l
  induction l generalizing b with
  | nil =>
    intro v h
    unfold lsScanAux at h
    by_cases hb : b = true
    · rw [if_pos hb] at h
      exact ⟨[], h⟩
    · rw [if_neg hb] at h
      simp at h
  | cons c r ih =>
    intro v h
    unfold lsScanAux at h
    cases hm : (if b then m (c :: r) else none) with
    | some w =>
      rw [hm] at h
      simp only [Option.some.injEq] at h
      refine ⟨c :: r, ?_⟩
      by_cases hb : b = true
      · rw [if_pos hb] at hm
        rw [hm, h]
      · rw [if_neg hb] at hm
        simp at hm
    | none =>
      rw [hm] at h
      exact ih h

theorem scanPos_some {α : Type} {m : List Char → Option α} :
    ∀ {l : List Char} {v : α},
    scanPos m l = some v → ∃ l', l' <:+ l ∧ m l' = some v := by
  intro l
  induction l with
  | nil =>
    intro v h
    unfold scanPos at h
    exact ⟨[], List.suffix_rfl, h⟩
  | cons c r ih =>
    intro v h
    unfold scanPos at h
    cases hm : m (c :: r) with
    | some w =>
      rw [hm] at h
      simp only [Option.some.injEq] at h
      exact ⟨c :: r, List.suffix_rfl, by rw [hm, h]⟩
    | none =>
      rw [hm] at h
      obtain ⟨l', hsuf, hml⟩ := ih h
      exact ⟨l', hsuf.trans (List.suffix_cons _ _), hml⟩

theorem fieldPat1_noNl {f l v : List Char} (h : fieldPat1 f l = some v) : '\n' ∉ v := by
  unfold fieldPat1 at h
  cases hp : litPrefixCI ("**".data ++ f ++ ":**".data) l with
  | none => rw [hp] at h; simp at h
  | some r =>
    rw [hp] at h
    exact capVal_noNl h

theorem fieldPat2_noNl {f l v : List Char} (h : fieldPat2 f l = some v) : '\n' ∉ v := by
  unfold fieldPat2 at h
  cases hp : litPrefixCI ("**".data ++ f ++ "**:".data) l with
  | none => rw [hp] at h; simp at h
  | some r =>
    rw [hp] at h
    exact capVal_noNl h

theorem fieldPat3_noNl {f l v : List Char} (h : fieldPat3 f l = some v) : '\n' ∉ v := by
  unfold fieldPat3 at h
  cases hp : litPrefixCI (f ++ ":".data) l with
  | none => rw [hp] at h; simp at h
  | some r =>
    rw [hp] at h
    exact capVal_noNl h

theorem fieldPat4_noNl {f l v : List Char} (h : fieldPat4 f l = some v) : '\n' ∉ v := by
  unfold fieldPat4 at h
  cases hp : litPrefixCI f l with
  | none => rw [hp] at h; simp at h
  | some r =>
    rw [hp] at h
    simp only [Option.bind_eq_bind, Option.some_bind] at h
    split at h
    · exact capVal_noNl h
    · simp at h

theorem extract_metadata_field_noNl {content fieldName : String} {s : String}
    (h : extract_metadata_field content fieldName = some s) : '\n' ∉ s.data := by
  unfold extract_metadata_field at h
  cases h1 : lsScan (fieldPat1 fieldName.data) content.data with
  | some v =>
    rw [h1] at h
    simp only [Option.some.injEq] at h
    obtain ⟨l', hm⟩ := lsScanAux_some h1
    rw [← h]
    exact fieldPat1_noNl hm
  | none =>
    rw [h1] at h
    cases h2 : lsScan (fieldPat2 fieldName.data) content.data with
    | some v =>
      rw [h2] at h
      simp only [Option.some.injEq] at h
      obtain ⟨l', hm⟩ := lsScanAux_some h2
      rw [← h]
      exact fieldPat2_noNl hm
    | none =>
      rw [h2] at h
      cases h3 : lsScan (fieldPat3 fieldName.data) content.data with
      | some v =>
        rw [h3] at h
        simp only [Option.some.injEq] at h
        obtain ⟨l', hm⟩ := lsScanAux_some h3
        rw [← h]
        exact fieldPat3_noNl hm
      | none =>
        rw [h3] at h
        cases h4 : lsScan (fieldPat4 fieldName.data) content.data with
        | some v =>
          rw [h4] at h
          simp only [Option.map_some', Option.some.injEq] at h
          obtain ⟨l', hm⟩ := lsScanAux_some h4
          rw [← h]
          exact fieldPat4_noNl hm
        | none =>
          rw [h4] at h
          simp at h

theorem titleAt_noNl {l v : List Char} (h : titleAt l = some v) : '\n' ∉ v := by
  unfold titleAt at h
  cases hp : litPrefixCI "title".data l with
  | none => rw [hp] at h; simp at h
  | some r =>
    rw [hp] at h
    simp only [Option.bind_eq_bind, Option.some_bind] at h
    split at h
    · exact capVal_noNl h
    · simp at h

theorem extract_document_title_noNl {content s : String}
    (h : extract_document_title content = some s) : '\n' ∉ s.data := by
  unfold extract_document_title at h
  cases h1 : scanPos titleAt content.data with
  | none => rw [h1] at h; simp at h
  | some v =>
    rw [h1] at h
    simp only [Option.map_some', Option.some.injEq] at h
    obtain ⟨l', _, hm⟩ := scanPos_some h1
    rw [← h]
    exact titleAt_noNl hm

theorem collapseWsAux_noNl : ∀ (b : Bool) (l : List Char), '\n' ∉ collapseWsAux b l := by
  intro b l
  induction l generalizing b with
  | nil => simp [collapseWsAux]
  | cons c r ih =>
    unfold collapseWsAux
    by_cases hc : isPySpace c = true
    · rw [if_pos hc]
      by_cases hb : b = true
      · rw [if_pos hb]
        exact ih true
      · rw [if_neg hb]
        intro hmem
        rcases List.mem_cons.mp hmem with hm | hm
        · exact absurd hm.symm (by decide)
        · exact ih true hm
    · rw [if_neg hc]
      intro hmem
      rcases List.mem_cons.mp hmem with hm | hm
      · rw [← hm] at hc
        exact hc (by decide)
      · exact ih false hm

theorem fallbackTitle_noNl (fp : String) : '\n' ∉ (fallbackTitle fp).data := by
  intro h
  exact collapseWsAux_noNl false _ (pyStrip_subset h)

theorem extractFields_title_noNl (ps : MetaParams) (content : String) :
    '\n' ∉ (extractFields ps content).title.data := by
  show '\n' ∉ (match extract_document_title content with
    | some s => if s = "" then fallbackTitle ps.filePath else s
    | none => fallbackTitle ps.filePath).data
  cases ht : extract_document_title content with
  | none => exact fallbackTitle_noNl ps.filePath
  | some s =>
    show '\n' ∉ (if s = "" then fallbackTitle ps.filePath else s).data
    by_cases hs : s = ""
    · rw [if_pos hs]
      exact fallbackTitle_noNl ps.filePath
    · rw [if_neg hs]
      exact extract_document_title_noNl ht

theorem determine_document_type_noNl (t : String) :
    '\n' ∉ (determine_document_type t).data := by
  simp only [determine_document_type]
  split
  · decide
  · split
    · decide
    · split
      · decide
      · decide

theorem toNat_ofNat_valid {n : Nat} (h1 : n < 55296) : (Char.ofNat n).toNat = n := by
  have hv : n.isValidChar := Or.inl h1
  unfold Char.ofNat
  rw [dif_pos hv]
  rfl

theorem asciiUpper_ne_nl {c : Char} (hc : c ≠ '\n') : asciiUpper c ≠ '\n' := by
  unfold asciiUpper
  by_cases h : 97 ≤ c.toNat ∧ c.toNat ≤ 122
  · rw [if_pos h]
    intro heq
    have : (Char.ofNat (c.toNat - 32)).toNat = c.toNat - 32 :=
      toNat_ofNat_valid (by omega)
    rw [heq] at this
    have h10 : ('\n' : Char).toNat = 10 := by decide
    omega
  · rw [if_neg h]
    exact hc

theorem pyUpper_noNl {s : String} (h : '\n' ∉ s.data) : '\n' ∉ (pyUpper s).data := by
  unfold pyUpper
  intro hmem
  simp only [List.mem_map] at hmem
  obtain ⟨c, hc, heq⟩ := hmem
  exact asciiUpper_ne_nl (fun he => h (he ▸ hc)) heq

theorem noNl_append {a b : String} (ha : '\n' ∉ a.data) (hb : '\n' ∉ b.data) :
    '\n' ∉ (a ++ b).data := by
  rw [String.data_append]
  intro h
  rcases List.mem_append.mp h with h | h
  · exact ha h
  · exact hb h

theorem basenameStr_noNl {s : String} (h : '\n' ∉ s.data) :
    '\n' ∉ (basenameStr s).data := by
  unfold basenameStr
  intro hm
  rw [List.mem_reverse] at hm
  have := (List.takeWhile_sublist _).subset hm
  rw [List.mem_reverse] at this
  exact h this

theorem splitextRoot_subset {c : Char} {l : List Char} (h : c ∈ splitextRoot l) : c ∈ l := by
  unfold splitextRoot at h
  split at h
  · exact h
  · split at h
    · rename_i rest revPre heq _
      rw [List.mem_reverse] at h
      have h2 : c ∈ (List.dropWhile (fun c => c ≠ '.') l.reverse) := by
        rw [heq]
        exact List.mem_cons_of_mem _ h
      have := (List.dropWhile_sublist _).subset h2
      rw [List.mem_reverse] at this
      exact this
    · exact h

theorem nameNoExt_noNl {s : String} (h : '\n' ∉ s.data) : '\n' ∉ nameNoExt s := by
  intro hm
  exact basenameStr_noNl h (splitextRoot_subset hm)

theorem litPrefix_suffix : ∀ {pat l r : List Char}, litPrefix pat l = some r → r <:+ l := by
  intro pat
  induction pat with
  | nil =>
    intro l r h
    unfold litPrefix at h
    simp only [Option.some.injEq] at h
    rw [h]
  | cons p ps ih =>
    intro l r h
    cases l with
    | nil => simp [litPrefix] at h
    | cons c cs =>
      unfold litPrefix at h
      by_cases hc : c = p
      · rw [if_pos hc] at h
        exact (ih h).trans (List.suffix_cons _ _)
      · rw [if_neg hc] at h
        simp at h

theorem ecoCompAt_noNl {l v : List Char} (hl : '\n' ∉ l) (h : ecoCompAt l = some v) :
    '\n' ∉ v := by
  unfold ecoCompAt at h
  cases hp : litPrefix "Eco.".data l with
  | none => rw [hp] at h; simp at h
  | some r =>
    rw [hp] at h
    simp only [Option.bind_eq_bind, Option.some_bind] at h
    split at h
    · simp at h
    · rename_i t heq
      simp only [Option.some.injEq] at h
      intro hm
      rw [← h] at hm
      rcases List.mem_append.mp hm with hm | hm
      · exact absurd hm (by decide)
      · have h2 := (List.takeWhile_sublist _).subset hm
        exact hl ((litPrefix_suffix hp).subset h2)

theorem sourceUrl_noNl {ps : MetaParams} (h : paramsNoNl ps) :
    '\n' ∉ (sourceUrl ps).data := by
  obtain ⟨hfp, hsu, hrn, hcs, hosp, _⟩ := h
  unfold sourceUrl
  have hbase : '\n' ∉ (ps.githubServerUrl ++ "/" ++ ps.repositoryName ++ "/blob/" ++
      ps.commitSha ++ "/").data := by
    refine noNl_append (noNl_append (noNl_append (noNl_append (noNl_append hsu ?_) hrn) ?_)
      hcs) ?_ <;> decide
  cases hop : ps.originalSourcePath with
  | some p =>
    rw [hop] at hosp
    exact noNl_append hbase hosp
  | none =>
    have hnne : '\n' ∉ nameNoExt ps.filePath := nameNoExt_noNl hfp
    have hof : '\n' ∉ ((⟨nameNoExt ps.filePath⟩ : String) ++ ".fodt").data :=
      noNl_append hnne (by decide)
    apply noNl_append hbase
    split
    · split
      · rename_i comp hcomp
        apply noNl_append (by decide)
        apply noNl_append
        · obtain ⟨l', hsuf, hml⟩ := scanPos_some hcomp
          exact ecoCompAt_noNl (fun hm => hnne (hsuf.subset hm)) hml
        · exact noNl_append (by decide) hof
      · exact noNl_append (by decide) hof
    · exact noNl_append (by decide) hof

theorem optField_mem {pre : String} {v : Option String} {m : String}
    (h : m ∈ optField pre v) : ∃ s, v = some s ∧ s ≠ "" ∧ m = pre ++ (s ++ "\"") := by
  unfold optField at h
  cases v with
  | none => simp at h
  | some s =>
    by_cases hs : s = ""
    · simp [hs] at h
    · simp [hs] at h
      exact ⟨s, rfl, hs, h⟩

theorem pyOr_eq_some {a b : Option String} {s : String} (h : pyOr a b = some s) :
    a = some s ∨ b = some s := by
  unfold pyOr at h
  by_cases ht : truthy a = true
  · rw [if_pos ht] at h
    exact Or.inl h
  · rw [if_neg ht] at h
    exact Or.inr h

theorem good_pre_line {pre v : String} {c : Char} {cs : List Char}
    (hd : pre.data = c :: cs) (hc : c ≠ '-') (hnl1 : '\n' ∉ pre.data)
    (hnl2 : '\n' ∉ v.data) :
    '\n' ∉ (pre ++ v).data ∧ (pre ++ v).data ≠ "---".data := by
  refine ⟨noNl_append hnl1 hnl2, ?_⟩
  rw [String.data_append, hd]
  intro heq
  injection heq with h1 _
  exact hc h1

theorem extractFields_uspd_noNl {ps : MetaParams} {content s : String}
    (h : (extractFields ps content).uspd = some s) : '\n' ∉ s.data := by
  have h2 : pyOr (extract_metadata_field content "USPD")
      (extract_metadata_field content "ЕСПД") = some s := h
  rcases pyOr_eq_some h2 with h3 | h3
  · exact extract_metadata_field_noNl h3
  · exact extract_metadata_field_noNl h3

theorem map_pyUpper_noNl {v : Option String} {s : String}
    (hv : ∀ s0, v = some s0 → '\n' ∉ s0.data)
    (h : v.map pyUpper = some s) : '\n' ∉ s.data := by
  cases v with
  | none => simp at h
  | some s0 =>
    simp only [Option.map_some', Option.some.injEq] at h
    rw [← h]
    exact pyUpper_noNl (hv s0 rfl)

/-- Every line between the two `---` delimiters of a generated header is
newline-free and is not itself a `---` line. -/
theorem midLines_facts {ps : MetaParams} (content : String) (h : paramsNoNl ps) :
    ∀ m ∈ midLines ps content, '\n' ∉ m.data ∧ m.data ≠ "---".data := by
  intro m hm
  unfold midLines midLinesOf at hm
  simp only [List.mem_append, List.mem_cons, List.not_mem_nil, or_false, or_assoc] at hm
  have htoday : '\n' ∉ ps.today.data := h.2.2.2.2.2
  rcases hm with rfl | rfl | rfl | hm | hm | hm | rfl | hm | hm | hm | hm | hm | hm | hm
      | rfl | rfl | rfl | rfl
  · exact good_pre_line rfl (by decide) (by decide)
      (noNl_append (extractFields_title_noNl ps content) (by decide))
  · exact ⟨by decide, by decide⟩
  · refine good_pre_line rfl (by decide) (by decide)
      (noNl_append ?_ (by decide))
    show '\n' ∉ (determine_document_type _).data
    exact determine_document_type_noNl _
  · obtain ⟨s, hv, _, rfl⟩ := optField_mem hm
    exact good_pre_line rfl (by decide) (by decide)
      (noNl_append (extractFields_uspd_noNl hv) (by decide))
  · obtain ⟨s, hv, _, rfl⟩ := optField_mem hm
    exact good_pre_line rfl (by decide) (by decide)
      (noNl_append (extract_metadata_field_noNl hv) (by decide))
  · obtain ⟨s, hv, _, rfl⟩ := optField_mem hm
    exact good_pre_line rfl (by decide) (by decide)
      (noNl_append (extract_metadata_field_noNl hv) (by decide))
  · exact good_pre_line rfl (by decide) (by decide) (noNl_append htoday (by decide))
  · obtain ⟨s, hv, _, rfl⟩ := optField_mem hm
    exact good_pre_line rfl (by decide) (by decide)
      (noNl_append (extract_metadata_field_noNl hv) (by decide))
  · obtain ⟨s, hv, _, rfl⟩ := optField_mem hm
    exact good_pre_line rfl (by decide) (by decide)
      (noNl_append (extract_metadata_field_noNl hv) (by decide))
  · obtain ⟨s, hv, _, rfl⟩ := optField_mem hm
    exact good_pre_line rfl (by decide) (by decide)
      (noNl_append (extract_metadata_field_noNl hv) (by decide))
  · obtain ⟨s, hv, _, rfl⟩ := optField_mem hm
    refine good_pre_line rfl (by decide) (by decide) (noNl_append ?_ (by decide))
    exact map_pyUpper_noNl (fun s0 h0 => extract_metadata_field_noNl h0) hv
  · obtain ⟨s, hv, _, rfl⟩ := optField_mem hm
    refine good_pre_line rfl (by decide) (by decide) (noNl_append ?_ (by decide))
    exact map_pyUpper_noNl (fun s0 h0 => extract_metadata_field_noNl h0) hv
  · obtain ⟨s, hv, _, rfl⟩ := optField_mem hm
    refine good_pre_line rfl (by decide) (by decide) (noNl_append ?_ (by decide))
    exact map_pyUpper_noNl (fun s0 h0 => extract_metadata_field_noNl h0) hv
  · obtain ⟨s, hv, _, rfl⟩ := optField_mem hm
    exact good_pre_line rfl (by decide) (by decide)
      (noNl_append (extract_metadata_field_noNl hv) (by decide))
  · exact good_pre_line rfl (by decide) (by decide)
      (noNl_append (sourceUrl_noNl h) (by decide))
  · exact ⟨by decide, by decide⟩
  · exact ⟨by decide, by decide⟩
  · exact ⟨by decide, by decide⟩

/-! ## Header stripping on generated documents -/

theorem dropAfterMarker_cons_of_not_prefix {c : Char} {l : List Char}
    (h : stripMarker.isPrefixOf (c :: l) = false) :
    dropAfterMarker (c :: l) = dropAfterMarker l := by
  show (if stripMarker.isPrefixOf (c :: l) = true then some ((c :: l).drop 5)
      else dropAfterMarker l) = dropAfterMarker l
  rw [h]
  simp

theorem dropAfterMarker_cons_ne {c : Char} (hc : ('\n' : Char) ≠ c) (l : List Char) :
    dropAfterMarker (c :: l) = dropAfterMarker l := by
  apply dropAfterMarker_cons_of_not_prefix
  simp [stripMarker, List.isPrefixOf_cons₂]
  intro he
  exact absurd he hc

theorem dropAfterMarker_chunk {l : List Char} (hl : '\n' ∉ l) (rest : List Char) :
    dropAfterMarker (l ++ rest) = dropAfterMarker rest := by
  induction l with
  | nil => rfl
  | cons c cs ih =>
    have hc : ('\n' : Char) ≠ c := fun he => hl (he ▸ List.mem_cons_self _ _)
    have hcs : '\n' ∉ cs := fun hm => hl (List.mem_cons_of_mem _ hm)
    rw [List.cons_append, dropAfterMarker_cons_ne hc]
    exact ih hcs

theorem dropAfterMarker_fire (B : List Char) :
    dropAfterMarker ('\n' :: '-' :: '-' :: '-' :: '\n' :: B) = some B := by
  show (if stripMarker.isPrefixOf ('\n' :: '-' :: '-' :: '-' :: '\n' :: B) = true
      then some (List.drop 5 ('\n' :: '-' :: '-' :: '-' :: '\n' :: B))
      else dropAfterMarker ('-' :: '-' :: '-' :: '\n' :: B)) = some B
  have hpre : stripMarker.isPrefixOf ('\n' :: '-' :: '-' :: '-' :: '\n' :: B) = true := by
    simp [stripMarker, List.isPrefixOf_cons₂]
  rw [hpre]
  simp

theorem marker_not_prefix_sep {l2 : List Char} (hnl : '\n' ∉ l2)
    (hne : l2 ≠ ['-', '-', '-']) (r : List Char) :
    stripMarker.isPrefixOf ('\n' :: (l2 ++ '\n' :: r)) = false := by
  rcases l2 with _ | ⟨a, _ | ⟨b, _ | ⟨c, _ | ⟨d, t⟩⟩⟩⟩
  · simp [stripMarker, List.isPrefixOf_cons₂,
      show (('-' : Char) == '\n') = false from by decide]
  · simp [stripMarker, List.isPrefixOf_cons₂,
      show (('-' : Char) == '\n') = false from by decide]
  · simp [stripMarker, List.isPrefixOf_cons₂,
      show (('-' : Char) == '\n') = false from by decide]
  · rw [Bool.eq_false_iff]
    intro hX
    simp only [stripMarker, List.cons_append, List.nil_append, List.isPrefixOf_cons₂,
      Bool.and_eq_true, beq_iff_eq] at hX
    exact hne (by rw [← hX.2.1, ← hX.2.2.1, ← hX.2.2.2.1])
  · have hd : ('\n' : Char) ≠ d := fun he =>
      hnl (he ▸ List.mem_cons_of_mem _ (List.mem_cons_of_mem _
        (List.mem_cons_of_mem _ (List.mem_cons_self _ _))))
    simp [stripMarker, List.isPrefixOf_cons₂,
      show (('\n' : Char) == d) = false from beq_eq_false_iff_ne.mpr hd]

theorem dropAfterMarker_join :
    ∀ (lines : List (List Char)) (B : List Char),
    (∀ l ∈ lines, '\n' ∉ l) → (∀ l ∈ lines.tail, l ≠ ['-', '-', '-']) →
    dropAfterMarker (charJoin lines ++ '\n' :: '-' :: '-' :: '-' :: '\n' :: B) = some B := by
  intro lines
  induction lines with
  | nil =>
    intro B _ _
    exact dropAfterMarker_fire B
  | cons l ls ih =>
    intro B hnl hne
    have hl : '\n' ∉ l := hnl l (List.mem_cons_self _ _)
    cases ls with
    | nil =>
      show dropAfterMarker (l ++ '\n' :: '-' :: '-' :: '-' :: '\n' :: B) = some B
      rw [dropAfterMarker_chunk hl]
      exact dropAfterMarker_fire B
    | cons l2 ls2 =>
      have hstep : charJoin (l :: l2 :: ls2) ++ '\n' :: '-' :: '-' :: '-' :: '\n' :: B
          = l ++ '\n' :: (charJoin (l2 :: ls2) ++ '\n' :: '-' :: '-' :: '-' :: '\n' :: B) := by
        show (l ++ '\n' :: charJoin (l2 :: ls2)) ++ _ = _
        rw [List.append_assoc]
        rfl
      rw [hstep, dropAfterMarker_chunk hl]
      have hl2 : '\n' ∉ l2 := hnl l2 (List.mem_cons_of_mem _ (List.mem_cons_self _ _))
      have hl2ne : l2 ≠ ['-', '-', '-'] := hne l2 (List.mem_cons_self _ _)
      have hform : ∃ r, charJoin (l2 :: ls2) ++ '\n' :: '-' :: '-' :: '-' :: '\n' :: B
          = l2 ++ '\n' :: r := by
        cases ls2 with
        | nil => exact ⟨'-' :: '-' :: '-' :: '\n' :: B, rfl⟩
        | cons l3 ls3 =>
          refine ⟨charJoin (l3 :: ls3) ++ '\n' :: '-' :: '-' :: '-' :: '\n' :: B, ?_⟩
          show (l2 ++ '\n' :: charJoin (l3 :: ls3)) ++ _ = _
          rw [List.append_assoc]
          rfl
      obtain ⟨r, hr⟩ := hform
      rw [hr, dropAfterMarker_cons_of_not_prefix (marker_not_prefix_sep hl2 hl2ne r), ← hr]
      exact ih B (fun x hx => hnl x (List.mem_cons_of_mem _ hx))
        (fun x hx => hne x (List.mem_cons_of_mem _ hx))

theorem joinNl_close :
    ∀ (xs : List String), xs ≠ [] →
    (joinNl (xs ++ ["---", ""])).data
      = charJoin (xs.map String.data) ++ ['\n', '-', '-', '-', '\n'] := by
  intro xs
  induction xs with
  | nil => intro h; exact absurd rfl h
  | cons x ys ih =>
    intro _
    cases ys with
    | nil =>
      show (x ++ "\n" ++ joinNl ["---", ""]).data = x.data ++ ['\n', '-', '-', '-', '\n']
      rw [String.data_append, String.data_append, List.append_assoc]
      congr 1
    | cons y ys2 =>
      show (x ++ "\n" ++ joinNl ((y :: ys2) ++ ["---", ""])).data
        = (x.data ++ '\n' :: charJoin ((y :: ys2).map String.data))
            ++ ['\n', '-', '-', '-', '\n']
      rw [String.data_append, String.data_append, ih (by simp), List.append_assoc,
        List.append_assoc]
      congr 1

theorem frontmatter_data (ps : MetaParams) (content : String) (B : String) :
    (frontmatterOf ps content ++ B).data
      = charJoin (("---".data) :: (midLines ps content).map String.data)
          ++ '\n' :: '-' :: '-' :: '-' :: '\n' :: B.data := by
  rw [String.data_append]
  unfold frontmatterOf
  rw [show ("---" :: midLines ps content ++ ["---", ""])
      = (("---" :: midLines ps content) ++ ["---", ""]) from rfl]
  rw [joinNl_close _ (by simp)]
  rw [List.append_assoc]
  rfl

theorem mk_data_eq (s : String) : (⟨s.data⟩ : String) = s := rfl

/-- Re-running the strip on a document of the form generated-header ++ body
removes exactly the header. -/
theorem stripExisting_fm (ps : MetaParams) (content : String) (B : String)
    (hfacts : ∀ m ∈ midLines ps content, '\n' ∉ m.data ∧ m.data ≠ "---".data) :
    stripExisting (frontmatterOf ps content ++ B) = B := by
  have hdata := frontmatter_data ps content B
  have hdrop : dropAfterMarker ((frontmatterOf ps content ++ B).data) = some B.data := by
    rw [hdata]
    apply dropAfterMarker_join
    · intro l hl
      rcases List.mem_cons.mp hl with h | h
      · rw [h]; decide
      · obtain ⟨m, hm, rfl⟩ := List.mem_map.mp h
        exact (hfacts m hm).1
    · intro l hl
      simp only [List.tail_cons] at hl
      obtain ⟨m, hm, rfl⟩ := List.mem_map.mp hl
      exact (hfacts m hm).2
  have hpre : "---\n".data.isPrefixOf ((frontmatterOf ps content ++ B).data) = true := by
    rw [hdata]
    cases hml : (midLines ps content).map String.data with
    | nil => simp [charJoin, List.isPrefixOf]
    | cons m ms => simp [charJoin, List.isPrefixOf]
  unfold stripExisting
  rw [hpre]
  simp only [if_true]
  rw [hdrop]

/-! ## Claim theorem: re-framing preserves the body -/

/-- **C5.** Applying `create_meta` to a document whose content is a
generated header followed by a body `B` produces a newly generated header
followed by `B`, with `B` preserved byte for byte: the strip finds the
first `\n---\n` exactly at the close of the old header.  The provenance
parameters of the run that produced the old header must be newline-free
(a newline smuggled into them would corrupt the header's line structure). -/
theorem reframe_preserves_body (ps1 ps2 : MetaParams) (c1 B : String)
    (h : paramsNoNl ps1) :
    create_meta_content ps2 (frontmatterOf ps1 c1 ++ B)
      = frontmatterOf ps2 (frontmatterOf ps1 c1 ++ B) ++ B := by
  unfold create_meta_content
  rw [stripExisting_fm ps1 c1 B (midLines_facts c1 h)]

theorem reframe_preserves_body_witness :
    create_meta_content c5Ps2 (frontmatterOf c5Ps1 "hello" ++ "BODY")
      = frontmatterOf c5Ps2 (frontmatterOf c5Ps1 "hello" ++ "BODY") ++ "BODY" :=
  reframe_preserves_body c5Ps1 c5Ps2 "hello" "BODY"
    ⟨by decide, by decide, by decide, by decide, trivial, by decide⟩

end EcoDocs

